import Mathlib

/-!
Shallow embedding of the limit order book engine from `src/include/orderbook.hpp`.

Pointers become structured data: each price level's intrusive FIFO list
(`first_`/`last_`/`next_`) is a `List Order`, and the order pool's intrusive
free list is represented by the number of free slots (`free_slots_`), which is
the only observable of the pool (allocate pops one slot, fails exactly when no
slot is free; deallocate pushes one slot back).  The matching loops of the C++
code can diverge on states whose cursor points at an empty queue, so they are
embedded with an explicit fuel parameter returning `Option`: `none` means the
C++ loop has not terminated within the given fuel.
-/

set_option maxRecDepth 1500

namespace LOB

/-- `static constexpr size_t MAX_ORDERS = 1'000`. -/
def MAX_ORDERS : Nat := 1000

/-- `static constexpr size_t PRICE_MIN = 800`. -/
def PRICE_MIN : Nat := 800

/-- `static constexpr size_t PRICE_MAX = 1200`. -/
def PRICE_MAX : Nat := 1200

/-- `static constexpr size_t TICK_SIZE = 1`. -/
def TICK_SIZE : Nat := 1

/-- `static constexpr size_t NUM_LEVELS = (PRICE_MAX - PRICE_MIN) / TICK_SIZE + 1`. -/
def NUM_LEVELS : Nat := (PRICE_MAX - PRICE_MIN) / TICK_SIZE + 1

/-- `struct Order` (without the intrusive `next_` pointer, which is absorbed
into the `List` representation of each level's queue). -/
structure Order where
  order_id_ : Nat
  price_ : Nat
  quantity_ : Nat
deriving DecidableEq

/-- `struct Trade`. -/
structure Trade where
  taker_order_id : Nat
  maker_order_id : Nat
  price : Nat
  quantity : Nat
deriving DecidableEq

/-- `struct PriceLevel`.  `first_`/`last_` become the queue list; the level's
`price_` field is set once at construction to `PRICE_MIN + i * TICK_SIZE` and
never written again, so it is represented by the function `levelPrice` below. -/
structure PriceLevel where
  total_quantity_ : Nat
  queue_ : List Order
deriving DecidableEq

/-- The `price_` field of `levels_[i]`, as initialized by the
`OrderBookSide` constructor: `PRICE_MIN + i * TICK_SIZE`, never mutated. -/
def levelPrice (i : Nat) : Nat := PRICE_MIN + i * TICK_SIZE

/-- `struct OrderBookSide`.  `pool_` is represented by its number of free
slots; `levels_` maps a ladder index to its level (only indices
`< NUM_LEVELS` are ever read or written by the code). -/
structure OrderBookSide where
  levels_ : Nat → PriceLevel
  free_slots_ : Nat
  is_bid_ : Bool
  best_price_index_ : Nat

/-- The `OrderBookSide(bool is_bid)` constructor: empty ladder, full pool,
cursor at the sentinel `NUM_LEVELS`. -/
def OrderBookSide.init (is_bid : Bool) : OrderBookSide where
  levels_ := fun _ => ⟨0, []⟩
  free_slots_ := MAX_ORDERS
  is_bid_ := is_bid
  best_price_index_ := NUM_LEVELS

/-- `price_to_index`: the pure index computation `(price - PRICE_MIN) / TICK_SIZE`
(its `assert` is modelled at the call site in `add_order`). -/
def price_to_index (price : Nat) : Nat := (price - PRICE_MIN) / TICK_SIZE

/-- The asserted precondition of `price_to_index`:
`price >= PRICE_MIN && price <= PRICE_MAX`. -/
def priceInRange (price : Nat) : Prop := PRICE_MIN ≤ price ∧ price ≤ PRICE_MAX

instance (price : Nat) : Decidable (priceInRange price) := by
  unfold priceInRange; infer_instance

/-- Write one ladder slot, leaving the rest of the side unchanged. -/
def setLevel (s : OrderBookSide) (i : Nat) (lvl : PriceLevel) : OrderBookSide :=
  { s with levels_ := fun j => if j = i then lvl else s.levels_ j }

/-- `update_best_bid_after_order`. -/
def update_best_bid_after_order (s : OrderBookSide) (price_idx : Nat) : OrderBookSide :=
  if s.best_price_index_ = NUM_LEVELS ∨ s.best_price_index_ < price_idx then
    { s with best_price_index_ := price_idx }
  else s

/-- `update_best_ask_after_order`. -/
def update_best_ask_after_order (s : OrderBookSide) (price_idx : Nat) : OrderBookSide :=
  if s.best_price_index_ = NUM_LEVELS ∨ price_idx < s.best_price_index_ then
    { s with best_price_index_ := price_idx }
  else s

/-- The loop of `update_best_bid_after_empty`:
`for (size_t i = old_idx; i-- > 0;)` visits `old_idx - 1, …, 0` and returns the
first index whose level has positive aggregate quantity. -/
def scanDown (s : OrderBookSide) : Nat → Option Nat
  | 0 => none
  | i + 1 => if 0 < (s.levels_ i).total_quantity_ then some i else scanDown s i

/-- `update_best_bid_after_empty`. -/
def update_best_bid_after_empty (s : OrderBookSide) (old_idx : Nat) : OrderBookSide :=
  match scanDown s old_idx with
  | some i => { s with best_price_index_ := i }
  | none => { s with best_price_index_ := NUM_LEVELS }

/-- The loop of `update_best_ask_after_empty`, with the remaining iteration
count `NUM_LEVELS - i` made explicit so the recursion is structural: starting
at index `i` with `n` levels left before `NUM_LEVELS`, return the first index
whose level has positive aggregate quantity. -/
def scanUpAux (s : OrderBookSide) : Nat → Nat → Option Nat
  | 0, _ => none
  | n + 1, i =>
    if 0 < (s.levels_ i).total_quantity_ then some i else scanUpAux s n (i + 1)

/-- The loop of `update_best_ask_after_empty`:
`for (size_t i = old_idx + 1; i < NUM_LEVELS; ++i)` returns the first index
`≥ i` whose level has positive aggregate quantity. -/
def scanUp (s : OrderBookSide) (i : Nat) : Option Nat :=
  scanUpAux s (NUM_LEVELS - i) i

/-- `update_best_ask_after_empty`. -/
def update_best_ask_after_empty (s : OrderBookSide) (old_idx : Nat) : OrderBookSide :=
  match scanUp s (old_idx + 1) with
  | some i => { s with best_price_index_ := i }
  | none => { s with best_price_index_ := NUM_LEVELS }

/-- Result of `OrderBookSide::add_order`:
the debug assert in `price_to_index` fires (out-of-range price, process aborts
before any mutation), or `pool_.allocate()` returns `nullptr` (side unmodified,
caller's remainder dropped), or the order is rested and the new side state is
returned. -/
inductive AddResult where
  | assertViolation
  | exhausted
  | ok (s : OrderBookSide)

/-- The mutation body of `add_order` once the asserts pass and allocation
succeeds: take one pool slot, fill the order's fields, append it to the
level's FIFO tail and bump the level's aggregate quantity. -/
def restOrder (s : OrderBookSide) (price quantity id : Nat) : OrderBookSide :=
  setLevel { s with free_slots_ := s.free_slots_ - 1 } (price_to_index price)
    ⟨(s.levels_ (price_to_index price)).total_quantity_ + quantity,
      (s.levels_ (price_to_index price)).queue_ ++ [⟨id, price, quantity⟩]⟩

/-- `OrderBookSide::add_order`.  The assert on the price runs first (in
`price_to_index`; the second assert `idx < NUM_LEVELS` is implied by it since
`TICK_SIZE = 1`), then allocation, then the append to the level's FIFO tail,
the aggregate update and the cursor update for the side's direction. -/
def add_order (s : OrderBookSide) (price quantity id : Nat) : AddResult :=
  if ¬ (PRICE_MIN ≤ price ∧ price ≤ PRICE_MAX) then .assertViolation
  else if s.free_slots_ = 0 then .exhausted
  else
    let s1 := restOrder s price quantity id
    .ok (if s1.is_bid_ then update_best_bid_after_order s1 (price_to_index price)
         else update_best_ask_after_order s1 (price_to_index price))

/-- Result of draining one price level's FIFO queue (the inner `while` loop
shared by `match_buy` and `match_sell`): emitted trades, the incoming order's
remaining quantity, the remaining queue, the total matched quantity (the net
decrement of the level's `total_quantity_`), and the number of fully filled
makers returned to the pool. -/
structure DrainResult where
  trades : List Trade
  remaining : Nat
  rest : List Order
  traded : Nat
  freed : Nat

/-- The inner loop `while (incoming_quantity > 0 && level->first_)` of
`match_buy`/`match_sell`: repeatedly trade `min(maker->quantity_, incoming)`
against the head maker, removing it when fully filled.  When the maker keeps a
positive remainder, `min` forces the incoming remainder to zero, so the C++
loop exits there. -/
def drainLevel (incoming_id : Nat) : Nat → List Order → DrainResult
  | q, [] => ⟨[], q, [], 0, 0⟩
  | q, maker :: rest =>
    if q = 0 then ⟨[], q, maker :: rest, 0, 0⟩
    else
      let tq := min maker.quantity_ q
      let t : Trade := ⟨incoming_id, maker.order_id_, maker.price_, tq⟩
      if maker.quantity_ - tq = 0 then
        let r := drainLevel incoming_id (q - tq) rest
        ⟨t :: r.trades, r.remaining, r.rest, tq + r.traded, r.freed + 1⟩
      else
        ⟨[t], q - tq, ⟨maker.order_id_, maker.price_, maker.quantity_ - tq⟩ :: rest, tq, 0⟩

/-- Body of one outer iteration of `OrderBookSide::match_buy`: drain the best
level's FIFO queue, write back the reduced aggregate and queue, return the
fully filled makers' slots to the pool, and, exactly when the queue went from
non-empty to empty, run the best-ask depletion update (as the C++ inner loop
does at the moment `level->first_` becomes null). -/
def matchBuyStep (s : OrderBookSide) (incoming_quantity incoming_id : Nat) :
    OrderBookSide × DrainResult :=
  let lvl := s.levels_ s.best_price_index_
  let r := drainLevel incoming_id incoming_quantity lvl.queue_
  let s1 := setLevel { s with free_slots_ := s.free_slots_ + r.freed }
    s.best_price_index_ ⟨lvl.total_quantity_ - r.traded, r.rest⟩
  (if lvl.queue_ ≠ [] ∧ r.rest = [] then
    update_best_ask_after_empty s1 s.best_price_index_ else s1, r)

/-- Body of one outer iteration of `OrderBookSide::match_sell`; identical to
`matchBuyStep` except that depletion updates the best bid cursor. -/
def matchSellStep (s : OrderBookSide) (incoming_quantity incoming_id : Nat) :
    OrderBookSide × DrainResult :=
  let lvl := s.levels_ s.best_price_index_
  let r := drainLevel incoming_id incoming_quantity lvl.queue_
  let s1 := setLevel { s with free_slots_ := s.free_slots_ + r.freed }
    s.best_price_index_ ⟨lvl.total_quantity_ - r.traded, r.rest⟩
  (if lvl.queue_ ≠ [] ∧ r.rest = [] then
    update_best_bid_after_empty s1 s.best_price_index_ else s1, r)

/-- One fuel-indexed unfolding of the outer `while (incoming_quantity > 0)`
loop of `OrderBookSide::match_buy` (run by the book on its ask side).  `none`
means the C++ loop has not exited within `fuel` outer iterations (the loop can
diverge when the cursor points at a level with an empty queue).  The crossing
test reads `level->price_`, i.e. `levelPrice best_price_index_`. -/
def matchBuyFuel : Nat → OrderBookSide → Nat → Nat → Nat →
    Option (OrderBookSide × List Trade × Nat)
  | 0, _, _, _, _ => none
  | fuel + 1, s, incoming_price, incoming_quantity, incoming_id =>
    if incoming_quantity = 0 then some (s, [], incoming_quantity)
    else if s.best_price_index_ = NUM_LEVELS then some (s, [], incoming_quantity)
    else if ¬ levelPrice s.best_price_index_ ≤ incoming_price then
      some (s, [], incoming_quantity)
    else
      let sr := matchBuyStep s incoming_quantity incoming_id
      match matchBuyFuel fuel sr.1 incoming_price sr.2.remaining incoming_id with
      | none => none
      | some (s', ts2, rem) => some (s', sr.2.trades ++ ts2, rem)

/-- `OrderBookSide::match_sell`, fuel-indexed like `matchBuyFuel`.  The
crossing test is `level->price_ >= incoming_price` and depletion updates the
best bid cursor. -/
def matchSellFuel : Nat → OrderBookSide → Nat → Nat → Nat →
    Option (OrderBookSide × List Trade × Nat)
  | 0, _, _, _, _ => none
  | fuel + 1, s, incoming_price, incoming_quantity, incoming_id =>
    if incoming_quantity = 0 then some (s, [], incoming_quantity)
    else if s.best_price_index_ = NUM_LEVELS then some (s, [], incoming_quantity)
    else if ¬ incoming_price ≤ levelPrice s.best_price_index_ then
      some (s, [], incoming_quantity)
    else
      let sr := matchSellStep s incoming_quantity incoming_id
      match matchSellFuel fuel sr.1 incoming_price sr.2.remaining incoming_id with
      | none => none
      | some (s', ts2, rem) => some (s', sr.2.trades ++ ts2, rem)

/-- Fuel sufficient for every terminating run of the matching loops: each
continuing outer iteration moves the cursor strictly toward the end of the
scan direction, so `NUM_LEVELS + 1` outer iterations always suffice. -/
def FUEL : Nat := NUM_LEVELS + 1

/-- `OrderBookSide::match_buy` (with the canonical fuel). -/
def match_buy (s : OrderBookSide) (incoming_price incoming_quantity incoming_id : Nat) :
    Option (OrderBookSide × List Trade × Nat) :=
  matchBuyFuel FUEL s incoming_price incoming_quantity incoming_id

/-- `OrderBookSide::match_sell` (with the canonical fuel). -/
def match_sell (s : OrderBookSide) (incoming_price incoming_quantity incoming_id : Nat) :
    Option (OrderBookSide × List Trade × Nat) :=
  matchSellFuel FUEL s incoming_price incoming_quantity incoming_id

/-- `struct OrderBook`. -/
structure OrderBook where
  bids : OrderBookSide
  asks : OrderBookSide

/-- `OrderBook() : bids(true), asks(false)`. -/
def OrderBook.init : OrderBook where
  bids := OrderBookSide.init true
  asks := OrderBookSide.init false

/-- Observable outcome of one `submit_order` call: the book afterwards, the
trades left in the caller's vector, and whether the debug assert in
`add_order`'s `price_to_index` fired (at which point the C++ process aborts
with exactly this state and these trades produced). -/
structure SubmitOutcome where
  book : OrderBook
  trades : List Trade
  assertHit : Bool

/-- `OrderBook::submit_order`.  `trades.clear()` is the fresh trade list; a
zero quantity returns at once; otherwise match against the opposite side and
rest any positive remainder on the own side (the returned `Order*` of
`add_order` is discarded, so allocation failure silently drops the
remainder).  `none` models divergence of the matching loop. -/
def submit_order (ob : OrderBook) (price quantity id : Nat) (is_bid : Bool) :
    Option SubmitOutcome :=
  if quantity = 0 then some ⟨ob, [], false⟩
  else if is_bid then
    match match_buy ob.asks price quantity id with
    | none => none
    | some (asks', trades, remaining) =>
      if 0 < remaining then
        match add_order ob.bids price remaining id with
        | .assertViolation => some ⟨⟨ob.bids, asks'⟩, trades, true⟩
        | .exhausted => some ⟨⟨ob.bids, asks'⟩, trades, false⟩
        | .ok bids' => some ⟨⟨bids', asks'⟩, trades, false⟩
      else some ⟨⟨ob.bids, asks'⟩, trades, false⟩
  else
    match match_sell ob.bids price quantity id with
    | none => none
    | some (bids', trades, remaining) =>
      if 0 < remaining then
        match add_order ob.asks price remaining id with
        | .assertViolation => some ⟨⟨bids', ob.asks⟩, trades, true⟩
        | .exhausted => some ⟨⟨bids', ob.asks⟩, trades, false⟩
        | .ok asks' => some ⟨⟨bids', asks'⟩, trades, false⟩
      else some ⟨⟨bids', ob.asks⟩, trades, false⟩

/-- Book states reachable from the freshly constructed book by completed
`submit_order` calls. -/
inductive Reachable : OrderBook → Prop where
  | init : Reachable OrderBook.init
  | step {ob : OrderBook} {price quantity id : Nat} {is_bid : Bool}
      {out : SubmitOutcome} : Reachable ob →
      submit_order ob price quantity id is_bid = some out → Reachable out.book

/-! ### Derived observables and invariants -/

/-- Sum of the quantities of a trade list. -/
def tradeSum (ts : List Trade) : Nat := (ts.map Trade.quantity).sum

/-- Sum of the remaining quantities of a queue of resting orders. -/
def queueSum (os : List Order) : Nat := (os.map Order.quantity_).sum

/-- Aggregate resting quantity of the first `n` ladder levels. -/
def sumLevels (s : OrderBookSide) : Nat → Nat
  | 0 => 0
  | n + 1 => sumLevels s n + (s.levels_ n).total_quantity_

/-- Total resting quantity of a side. -/
def sideTotal (s : OrderBookSide) : Nat := sumLevels s NUM_LEVELS

/-- The side an order of the given direction would rest on. -/
def ownSide (ob : OrderBook) : Bool → OrderBookSide
  | true => ob.bids
  | false => ob.asks

/-- The side an order of the given direction matches against. -/
def contraSide (ob : OrderBook) : Bool → OrderBookSide
  | true => ob.asks
  | false => ob.bids

/-- The matching phase `submit_order` runs for the given direction. -/
def matchContra (ob : OrderBook) (is_bid : Bool) (price quantity id : Nat) :
    Option (OrderBookSide × List Trade × Nat) :=
  match is_bid with
  | true => match_buy ob.asks price quantity id
  | false => match_sell ob.bids price quantity id

/-- Well-formedness of one price level: the aggregate equals the sum of the
queued remaining quantities, and every queued order has positive remaining
quantity and carries the level's price. -/
def levelOk (lvl : PriceLevel) (price : Nat) : Prop :=
  lvl.total_quantity_ = queueSum lvl.queue_ ∧
  ∀ o ∈ lvl.queue_, 1 ≤ o.quantity_ ∧ o.price_ = price

instance (lvl : PriceLevel) (price : Nat) : Decidable (levelOk lvl price) := by
  unfold levelOk queueSum; infer_instance

/-- `i` is a strictly better ladder index than `j` for the given direction:
higher for bids, lower for asks. -/
def betterIdx (bid : Bool) (i j : Nat) : Prop :=
  if bid then j < i else i < j

instance (bid : Bool) (i j : Nat) : Decidable (betterIdx bid i j) := by
  unfold betterIdx; infer_instance

/-- Cursor correctness for a side with the given direction: the sentinel with
an empty ladder, or the true best non-empty level. -/
def cursorInvDir (bid : Bool) (s : OrderBookSide) : Prop :=
  (s.best_price_index_ = NUM_LEVELS ∧
    ∀ i, i < NUM_LEVELS → (s.levels_ i).total_quantity_ = 0) ∨
  (s.best_price_index_ < NUM_LEVELS ∧
    0 < (s.levels_ s.best_price_index_).total_quantity_ ∧
    ∀ i, i < NUM_LEVELS → betterIdx bid i s.best_price_index_ →
      (s.levels_ i).total_quantity_ = 0)

instance (bid : Bool) (s : OrderBookSide) : Decidable (cursorInvDir bid s) := by
  unfold cursorInvDir; infer_instance

/-- Full side invariant for the given direction. -/
def sideInvDir (bid : Bool) (s : OrderBookSide) : Prop :=
  (∀ i, i < NUM_LEVELS → levelOk (s.levels_ i) (levelPrice i)) ∧ cursorInvDir bid s

instance (bid : Bool) (s : OrderBookSide) : Decidable (sideInvDir bid s) := by
  unfold sideInvDir; infer_instance

/-- Full book invariant. -/
def bookInv (ob : OrderBook) : Prop :=
  sideInvDir true ob.bids ∧ sideInvDir false ob.asks ∧
  ob.bids.is_bid_ = true ∧ ob.asks.is_bid_ = false

instance (ob : OrderBook) : Decidable (bookInv ob) := by
  unfold bookInv; infer_instance

/-! ### Elementary sum lemmas -/

@[simp] theorem tradeSum_nil : tradeSum [] = 0 := rfl

@[simp] theorem tradeSum_cons (t : Trade) (ts : List Trade) :
    tradeSum (t :: ts) = t.quantity + tradeSum ts := by
  simp [tradeSum]

@[simp] theorem tradeSum_append (a b : List Trade) :
    tradeSum (a ++ b) = tradeSum a + tradeSum b := by
  simp [tradeSum]

@[simp] theorem queueSum_nil : queueSum [] = 0 := rfl

@[simp] theorem queueSum_cons (o : Order) (os : List Order) :
    queueSum (o :: os) = o.quantity_ + queueSum os := by
  simp [queueSum]

@[simp] theorem queueSum_append (a b : List Order) :
    queueSum (a ++ b) = queueSum a + queueSum b := by
  simp [queueSum]

theorem queueSum_pos (os : List Order) (h : os ≠ [])
    (h1 : ∀ o ∈ os, 1 ≤ o.quantity_) : 0 < queueSum os := by
  cases os with
  | nil => exact absurd rfl h
  | cons o os =>
    have := h1 o (List.mem_cons_self o os)
    simp only [queueSum_cons]
    omega

/-! ### Facts about `drainLevel` -/

theorem drainLevel_traded (id : Nat) : ∀ (os : List Order) (q : Nat),
    (drainLevel id q os).traded = tradeSum (drainLevel id q os).trades := by
  intro os
  induction os with
  | nil => intro q; simp [drainLevel]
  | cons maker rest ih =>
    intro q
    by_cases hq : q = 0
    · simp [drainLevel, hq]
    · by_cases hm : maker.quantity_ - min maker.quantity_ q = 0
      · simp only [drainLevel, if_neg hq, if_pos hm, tradeSum_cons]
        rw [ih]
      · simp [drainLevel, if_neg hq, if_neg hm]

theorem drainLevel_remaining (id : Nat) : ∀ (os : List Order) (q : Nat),
    (drainLevel id q os).traded + (drainLevel id q os).remaining = q := by
  intro os
  induction os with
  | nil => intro q; simp [drainLevel]
  | cons maker rest ih =>
    intro q
    by_cases hq : q = 0
    · simp [drainLevel, hq]
    · by_cases hm : maker.quantity_ - min maker.quantity_ q = 0
      · simp only [drainLevel, if_neg hq, if_pos hm]
        have := ih (q - min maker.quantity_ q)
        omega
      · simp only [drainLevel, if_neg hq, if_neg hm]
        omega

theorem drainLevel_queueSum (id : Nat) : ∀ (os : List Order) (q : Nat),
    (drainLevel id q os).traded + queueSum (drainLevel id q os).rest = queueSum os := by
  intro os
  induction os with
  | nil => intro q; simp [drainLevel]
  | cons maker rest ih =>
    intro q
    by_cases hq : q = 0
    · simp [drainLevel, hq]
    · by_cases hm : maker.quantity_ - min maker.quantity_ q = 0
      · simp only [drainLevel, if_neg hq, if_pos hm, queueSum_cons]
        have := ih (q - min maker.quantity_ q)
        omega
      · simp only [drainLevel, if_neg hq, if_neg hm, queueSum_cons]
        omega

theorem drainLevel_rest_ne (id : Nat) : ∀ (os : List Order) (q : Nat),
    (drainLevel id q os).rest ≠ [] → (drainLevel id q os).remaining = 0 := by
  intro os
  induction os with
  | nil => intro q h; simp [drainLevel] at h
  | cons maker rest ih =>
    intro q
    by_cases hq : q = 0
    · intro _; simp [drainLevel, hq]
    · by_cases hm : maker.quantity_ - min maker.quantity_ q = 0
      · simp only [drainLevel, if_neg hq, if_pos hm]
        exact ih (q - min maker.quantity_ q)
      · simp only [drainLevel, if_neg hq, if_neg hm]
        intro _
        omega

theorem drainLevel_rest_orders (id : Nat) (P : Nat) : ∀ (os : List Order) (q : Nat),
    (∀ o ∈ os, 1 ≤ o.quantity_ ∧ o.price_ = P) →
    ∀ o ∈ (drainLevel id q os).rest, 1 ≤ o.quantity_ ∧ o.price_ = P := by
  intro os
  induction os with
  | nil => intro q _ o ho; simp [drainLevel] at ho
  | cons maker rest ih =>
    intro q hos
    by_cases hq : q = 0
    · simpa [drainLevel, hq] using hos
    · by_cases hm : maker.quantity_ - min maker.quantity_ q = 0
      · simp only [drainLevel, if_neg hq, if_pos hm]
        exact ih (q - min maker.quantity_ q) fun o ho => hos o (List.mem_cons_of_mem _ ho)
      · simp only [drainLevel, if_neg hq, if_neg hm]
        intro o ho
        rcases List.mem_cons.mp ho with h | h
        · subst h
          constructor
          · show 1 ≤ maker.quantity_ - min maker.quantity_ q
            omega
          · show maker.price_ = P
            exact (hos maker (List.mem_cons_self _ _)).2
        · exact hos o (List.mem_cons_of_mem _ h)

theorem drainLevel_trades_src (id : Nat) : ∀ (os : List Order) (q : Nat),
    ∀ t ∈ (drainLevel id q os).trades, t.taker_order_id = id ∧
      ∃ o ∈ os, t.maker_order_id = o.order_id_ ∧ t.price = o.price_ ∧
        t.quantity ≤ o.quantity_ := by
  intro os
  induction os with
  | nil => intro q t ht; simp [drainLevel] at ht
  | cons maker rest ih =>
    intro q
    by_cases hq : q = 0
    · intro t ht; simp [drainLevel, hq] at ht
    · by_cases hm : maker.quantity_ - min maker.quantity_ q = 0
      · simp only [drainLevel, if_neg hq, if_pos hm]
        intro t ht
        rcases List.mem_cons.mp ht with h | h
        · subst h
          exact ⟨rfl, maker, List.mem_cons_self _ _, rfl, rfl, Nat.min_le_left _ _⟩
        · obtain ⟨h1, o, ho, h2⟩ := ih (q - min maker.quantity_ q) t h
          exact ⟨h1, o, List.mem_cons_of_mem _ ho, h2⟩
      · simp only [drainLevel, if_neg hq, if_neg hm]
        intro t ht
        rcases List.mem_cons.mp ht with h | h
        · subst h
          exact ⟨rfl, maker, List.mem_cons_self _ _, rfl, rfl, Nat.min_le_left _ _⟩
        · simp at h

theorem drainLevel_rest_src (id : Nat) : ∀ (os : List Order) (q : Nat),
    ∀ o ∈ (drainLevel id q os).rest, ∃ o' ∈ os,
      o.order_id_ = o'.order_id_ ∧ o.price_ = o'.price_ := by
  intro os
  induction os with
  | nil => intro q o ho; simp [drainLevel] at ho
  | cons maker rest ih =>
    intro q
    by_cases hq : q = 0
    · intro o ho
      simp only [drainLevel, if_pos hq] at ho
      exact ⟨o, ho, rfl, rfl⟩
    · by_cases hm : maker.quantity_ - min maker.quantity_ q = 0
      · simp only [drainLevel, if_neg hq, if_pos hm]
        intro o ho
        obtain ⟨o', ho', h⟩ := ih (q - min maker.quantity_ q) o ho
        exact ⟨o', List.mem_cons_of_mem _ ho', h⟩
      · simp only [drainLevel, if_neg hq, if_neg hm]
        intro o ho
        rcases List.mem_cons.mp ho with h | h
        · subst h
          exact ⟨maker, List.mem_cons_self _ _, rfl, rfl⟩
        · exact ⟨o, List.mem_cons_of_mem _ h, rfl, rfl⟩

/-! ### Facts about the cursor scans and updates -/

@[simp] theorem setLevel_levels_self (s : OrderBookSide) (i : Nat) (lvl : PriceLevel) :
    (setLevel s i lvl).levels_ i = lvl := by
  simp [setLevel]

theorem setLevel_levels_ne (s : OrderBookSide) (i j : Nat) (lvl : PriceLevel)
    (h : j ≠ i) : (setLevel s i lvl).levels_ j = s.levels_ j := by
  simp [setLevel, h]

@[simp] theorem setLevel_best (s : OrderBookSide) (i : Nat) (lvl : PriceLevel) :
    (setLevel s i lvl).best_price_index_ = s.best_price_index_ := rfl

@[simp] theorem setLevel_free (s : OrderBookSide) (i : Nat) (lvl : PriceLevel) :
    (setLevel s i lvl).free_slots_ = s.free_slots_ := rfl

@[simp] theorem setLevel_is_bid (s : OrderBookSide) (i : Nat) (lvl : PriceLevel) :
    (setLevel s i lvl).is_bid_ = s.is_bid_ := rfl

theorem scanUpAux_spec (s : OrderBookSide) : ∀ n i, n = NUM_LEVELS - i →
    (∀ j, scanUpAux s n i = some j →
      i ≤ j ∧ j < NUM_LEVELS ∧ 0 < (s.levels_ j).total_quantity_ ∧
      ∀ k, i ≤ k → k < j → (s.levels_ k).total_quantity_ = 0) ∧
    (scanUpAux s n i = none →
      ∀ k, i ≤ k → k < NUM_LEVELS → (s.levels_ k).total_quantity_ = 0) := by
  intro n
  induction n with
  | zero =>
    intro i hn
    constructor
    · intro j hj
      simp [scanUpAux] at hj
    · intro _ k hk1 hk2
      omega
  | succ n ih =>
    intro i hn
    have hi : i < NUM_LEVELS := by omega
    by_cases hp : 0 < (s.levels_ i).total_quantity_
    · constructor
      · intro j hj
        simp only [scanUpAux, if_pos hp, Option.some.injEq] at hj
        subst hj
        exact ⟨Nat.le_refl _, hi, hp, fun k hk1 hk2 => by omega⟩
      · intro hj
        simp only [scanUpAux, if_pos hp] at hj
        exact absurd hj (by simp)
    · obtain ⟨ih1, ih2⟩ := ih (i + 1) (by omega)
      constructor
      · intro j hj
        simp only [scanUpAux, if_neg hp] at hj
        obtain ⟨h1, h2, h3, h4⟩ := ih1 j hj
        refine ⟨by omega, h2, h3, fun k hk1 hk2 => ?_⟩
        rcases Nat.eq_or_lt_of_le hk1 with h | h
        · subst h
          omega
        · exact h4 k (by omega) hk2
      · intro hj
        simp only [scanUpAux, if_neg hp] at hj
        intro k hk1 hk2
        rcases Nat.eq_or_lt_of_le hk1 with h | h
        · subst h
          omega
        · exact ih2 hj k (by omega) hk2

theorem scanUp_spec (s : OrderBookSide) : ∀ n i, NUM_LEVELS - i ≤ n →
    (∀ j, scanUp s i = some j →
      i ≤ j ∧ j < NUM_LEVELS ∧ 0 < (s.levels_ j).total_quantity_ ∧
      ∀ k, i ≤ k → k < j → (s.levels_ k).total_quantity_ = 0) ∧
    (scanUp s i = none →
      ∀ k, i ≤ k → k < NUM_LEVELS → (s.levels_ k).total_quantity_ = 0) := by
  intro _ i _
  exact scanUpAux_spec s (NUM_LEVELS - i) i rfl

theorem scanDown_spec (s : OrderBookSide) : ∀ n,
    (∀ j, scanDown s n = some j →
      j < n ∧ 0 < (s.levels_ j).total_quantity_ ∧
      ∀ k, j < k → k < n → (s.levels_ k).total_quantity_ = 0) ∧
    (scanDown s n = none → ∀ k, k < n → (s.levels_ k).total_quantity_ = 0) := by
  intro n
  induction n with
  | zero =>
    constructor
    · intro j hj; simp [scanDown] at hj
    · intro _ k hk; omega
  | succ n ih =>
    obtain ⟨ih1, ih2⟩ := ih
    by_cases hp : 0 < (s.levels_ n).total_quantity_
    · constructor
      · intro j hj
        simp [scanDown, hp] at hj
        subst hj
        exact ⟨Nat.lt_succ_self _, hp, fun k hk1 hk2 => by omega⟩
      · intro hj; simp [scanDown, hp] at hj
    · constructor
      · intro j hj
        simp [scanDown, hp] at hj
        obtain ⟨h1, h2, h3⟩ := ih1 j hj
        refine ⟨by omega, h2, fun k hk1 hk2 => ?_⟩
        rcases Nat.lt_succ_iff_lt_or_eq.mp hk2 with h | h
        · exact h3 k hk1 h
        · subst h; omega
      · intro hj
        simp [scanDown, hp] at hj
        intro k hk
        rcases Nat.lt_succ_iff_lt_or_eq.mp hk with h | h
        · exact ih2 hj k h
        · subst h; omega

/-- Behaviour of `update_best_ask_after_empty`: only the cursor changes; it
moves strictly past `old_idx` to the first non-empty level, or to the
sentinel, with every skipped level empty. -/
theorem afterEmptyAsk_spec (s : OrderBookSide) (old : Nat) (hold : old < NUM_LEVELS) :
    (update_best_ask_after_empty s old).levels_ = s.levels_ ∧
    (update_best_ask_after_empty s old).free_slots_ = s.free_slots_ ∧
    (update_best_ask_after_empty s old).is_bid_ = s.is_bid_ ∧
    old < (update_best_ask_after_empty s old).best_price_index_ ∧
    (update_best_ask_after_empty s old).best_price_index_ ≤ NUM_LEVELS ∧
    ((update_best_ask_after_empty s old).best_price_index_ < NUM_LEVELS →
      0 < (s.levels_ (update_best_ask_after_empty s old).best_price_index_).total_quantity_) ∧
    (∀ k, old < k → k < (update_best_ask_after_empty s old).best_price_index_ →
      k < NUM_LEVELS → (s.levels_ k).total_quantity_ = 0) := by
  rcases hscan : scanUp s (old + 1) with _ | j <;>
    simp only [update_best_ask_after_empty, hscan]
  · obtain ⟨_, h2⟩ := scanUp_spec s NUM_LEVELS (old + 1) (by omega)
    exact ⟨by trivial, by trivial, by trivial, hold, Nat.le_refl _,
      fun h => (Nat.lt_irrefl _ h).elim,
      fun k hk1 hk2 hk3 => h2 hscan k (by omega) hk3⟩
  · obtain ⟨h1, _⟩ := scanUp_spec s NUM_LEVELS (old + 1) (by omega)
    obtain ⟨hj1, hj2, hj3, hj4⟩ := h1 j hscan
    exact ⟨by trivial, by trivial, by trivial, by omega, by omega, fun _ => hj3,
      fun k hk1 hk2 hk3 => hj4 k (by omega) hk2⟩

/-- Behaviour of `update_best_bid_after_empty`: only the cursor changes; it
moves strictly below `old_idx` to the first non-empty level, or to the
sentinel, with every skipped level empty. -/
theorem afterEmptyBid_spec (s : OrderBookSide) (old : Nat) (hold : old < NUM_LEVELS) :
    (update_best_bid_after_empty s old).levels_ = s.levels_ ∧
    (update_best_bid_after_empty s old).free_slots_ = s.free_slots_ ∧
    (update_best_bid_after_empty s old).is_bid_ = s.is_bid_ ∧
    ((update_best_bid_after_empty s old).best_price_index_ < old ∨
      (update_best_bid_after_empty s old).best_price_index_ = NUM_LEVELS) ∧
    ((update_best_bid_after_empty s old).best_price_index_ < NUM_LEVELS →
      0 < (s.levels_ (update_best_bid_after_empty s old).best_price_index_).total_quantity_) ∧
    (∀ k, k < old →
      ((update_best_bid_after_empty s old).best_price_index_ < k ∨
        (update_best_bid_after_empty s old).best_price_index_ = NUM_LEVELS) →
      (s.levels_ k).total_quantity_ = 0) := by
  rcases hscan : scanDown s old with _ | j <;>
    simp only [update_best_bid_after_empty, hscan]
  · obtain ⟨_, h2⟩ := scanDown_spec s old
    refine ⟨by trivial, by trivial, by trivial, Or.inr (by trivial), fun h => ?_,
      fun k hk1 _ => h2 hscan k hk1⟩
    omega
  · obtain ⟨h1, _⟩ := scanDown_spec s old
    obtain ⟨hj1, hj2, hj3⟩ := h1 j hscan
    refine ⟨by trivial, by trivial, by trivial, Or.inl hj1, fun _ => hj2, fun k hk1 hk2 => ?_⟩
    rcases hk2 with h | h
    · exact hj3 k h hk1
    · omega

@[simp] theorem betterIdx_false_iff (i j : Nat) : betterIdx false i j ↔ i < j := by
  simp [betterIdx]

@[simp] theorem betterIdx_true_iff (i j : Nat) : betterIdx true i j ↔ j < i := by
  simp [betterIdx]

/-! ### One outer iteration of the matching loops -/

/-- Everything one `match_buy` outer iteration guarantees on a well-formed
ask side whose cursor points at a non-empty level: the side invariant is
preserved, quantity is conserved between trades and remainder, every trade is
priced at the drained level (the maker's price), and the cursor either moves
strictly up or the incoming order is exhausted. -/
theorem matchBuyStep_spec (s : OrderBookSide) (q id : Nat)
    (hs : sideInvDir false s)
    (hblt : s.best_price_index_ < NUM_LEVELS)
    (hbpos : 0 < (s.levels_ s.best_price_index_).total_quantity_) :
    sideInvDir false (matchBuyStep s q id).1 ∧
    (matchBuyStep s q id).1.is_bid_ = s.is_bid_ ∧
    (matchBuyStep s q id).2.traded + (matchBuyStep s q id).2.remaining = q ∧
    (matchBuyStep s q id).2.traded = tradeSum (matchBuyStep s q id).2.trades ∧
    (∀ t ∈ (matchBuyStep s q id).2.trades, t.taker_order_id = id ∧
      t.price = levelPrice s.best_price_index_ ∧
      ∃ o ∈ (s.levels_ s.best_price_index_).queue_,
        t.maker_order_id = o.order_id_ ∧ t.price = o.price_) ∧
    (s.best_price_index_ < (matchBuyStep s q id).1.best_price_index_ ∨
      ((matchBuyStep s q id).1.best_price_index_ = s.best_price_index_ ∧
        (matchBuyStep s q id).2.remaining = 0)) ∧
    (∀ i, ∀ o ∈ ((matchBuyStep s q id).1.levels_ i).queue_,
      ∃ o' ∈ (s.levels_ i).queue_,
        o.order_id_ = o'.order_id_ ∧ o.price_ = o'.price_) := by
  obtain ⟨hlv, hcur⟩ := hs
  obtain ⟨hsum, hords⟩ := hlv s.best_price_index_ hblt
  have hqne : (s.levels_ s.best_price_index_).queue_ ≠ [] := by
    intro hnil
    rw [hnil] at hsum
    simp at hsum
    omega
  rcases hcur with ⟨hne, _⟩ | ⟨_, _, hbet⟩
  · omega
  have hrem := drainLevel_remaining id (s.levels_ s.best_price_index_).queue_ q
  have htr := drainLevel_traded id (s.levels_ s.best_price_index_).queue_ q
  have hqs := drainLevel_queueSum id (s.levels_ s.best_price_index_).queue_ q
  have hro := drainLevel_rest_orders id (levelPrice s.best_price_index_)
    (s.levels_ s.best_price_index_).queue_ q hords
  have hrsrc := drainLevel_rest_src id (s.levels_ s.best_price_index_).queue_ q
  have hts := drainLevel_trades_src id (s.levels_ s.best_price_index_).queue_ q
  by_cases hrest : (drainLevel id q (s.levels_ s.best_price_index_).queue_).rest = []
  · -- the level was fully depleted: the ask depletion scan runs
    have htz : (drainLevel id q (s.levels_ s.best_price_index_).queue_).traded =
        (s.levels_ s.best_price_index_).total_quantity_ := by
      rw [hrest] at hqs
      simp at hqs
      omega
    simp only [matchBuyStep, if_pos (And.intro hqne hrest)]
    obtain ⟨hE1, hE2, hE3, hE4, hE5, hE6, hE7⟩ :=
      afterEmptyAsk_spec
        (setLevel { s with free_slots_ :=
            s.free_slots_ + (drainLevel id q (s.levels_ s.best_price_index_).queue_).freed }
          s.best_price_index_
          ⟨(s.levels_ s.best_price_index_).total_quantity_ -
            (drainLevel id q (s.levels_ s.best_price_index_).queue_).traded,
            (drainLevel id q (s.levels_ s.best_price_index_).queue_).rest⟩)
        s.best_price_index_ hblt
    refine ⟨⟨?_, ?_⟩, ?_, hrem, htr, ?_, Or.inl hE4, ?_⟩
    · -- levelOk everywhere after depletion
      intro i hi
      rw [hE1]
      by_cases hieq : i = s.best_price_index_
      · subst hieq
        rw [setLevel_levels_self]
        refine ⟨?_, ?_⟩
        · show (s.levels_ s.best_price_index_).total_quantity_ -
            (drainLevel id q (s.levels_ s.best_price_index_).queue_).traded =
            queueSum (drainLevel id q (s.levels_ s.best_price_index_).queue_).rest
          rw [hrest]
          simp
          omega
        · intro o ho
          exact hro o ho
      · rw [setLevel_levels_ne _ _ _ _ hieq]
        exact hlv i hi
    · -- cursor invariant after depletion
      rcases Nat.eq_or_lt_of_le hE5 with hNN | hlt2
      · left
        refine ⟨hNN, fun i hi => ?_⟩
        rw [hE1]
        by_cases hieq : i = s.best_price_index_
        · subst hieq
          rw [setLevel_levels_self]
          show (s.levels_ s.best_price_index_).total_quantity_ -
            (drainLevel id q (s.levels_ s.best_price_index_).queue_).traded = 0
          omega
        · rcases Nat.lt_or_ge i s.best_price_index_ with h | h
          · rw [setLevel_levels_ne _ _ _ _ hieq]
            exact hbet i hi ((betterIdx_false_iff _ _).mpr h)
          · exact hE7 i (by omega) (by omega) hi
      · right
        refine ⟨hlt2, ?_, fun i hi hbi => ?_⟩
        · rw [hE1]
          exact hE6 hlt2
        · rw [hE1]
          rw [betterIdx_false_iff] at hbi
          by_cases hieq : i = s.best_price_index_
          · subst hieq
            rw [setLevel_levels_self]
            show (s.levels_ s.best_price_index_).total_quantity_ -
              (drainLevel id q (s.levels_ s.best_price_index_).queue_).traded = 0
            omega
          · rcases Nat.lt_or_ge i s.best_price_index_ with h | h
            · rw [setLevel_levels_ne _ _ _ _ hieq]
              exact hbet i hi ((betterIdx_false_iff _ _).mpr h)
            · exact hE7 i (by omega) hbi hi
    · -- is_bid_ preserved
      rw [hE3, setLevel_is_bid]
    · -- trade facts
      intro t ht
      obtain ⟨htk, o, ho, hm1, hm2, _⟩ := hts t ht
      exact ⟨htk, by rw [hm2, (hords o ho).2], o, ho, hm1, hm2⟩
    · -- queue refinement
      intro i o ho
      rw [hE1] at ho
      by_cases hieq : i = s.best_price_index_
      · subst hieq
        rw [setLevel_levels_self] at ho
        simp [hrest] at ho
      · rw [setLevel_levels_ne _ _ _ _ hieq] at ho
        exact ⟨o, ho, rfl, rfl⟩
  · -- the level keeps resting orders: the incoming quantity is exhausted
    have hcond : ¬ ((s.levels_ s.best_price_index_).queue_ ≠ [] ∧
        (drainLevel id q (s.levels_ s.best_price_index_).queue_).rest = []) :=
      fun h => hrest h.2
    simp only [matchBuyStep, if_neg hcond]
    have hrpos : 0 < queueSum (drainLevel id q (s.levels_ s.best_price_index_).queue_).rest :=
      queueSum_pos _ hrest fun o ho => (hro o ho).1
    refine ⟨⟨?_, ?_⟩, by simp [setLevel], hrem, htr, ?_,
      Or.inr ⟨by simp [setLevel], drainLevel_rest_ne id _ q hrest⟩, ?_⟩
    · -- levelOk everywhere
      intro i hi
      by_cases hieq : i = s.best_price_index_
      · subst hieq
        rw [setLevel_levels_self]
        refine ⟨?_, ?_⟩
        · show (s.levels_ s.best_price_index_).total_quantity_ -
            (drainLevel id q (s.levels_ s.best_price_index_).queue_).traded =
            queueSum (drainLevel id q (s.levels_ s.best_price_index_).queue_).rest
          omega
        · intro o ho
          exact hro o ho
      · rw [setLevel_levels_ne _ _ _ _ hieq]
        exact hlv i hi
    · -- cursor invariant: cursor unchanged, level still non-empty
      right
      refine ⟨by simp [setLevel]; omega, ?_, fun i hi hbi => ?_⟩
      · simp only [setLevel_best]
        show 0 < ((setLevel { s with free_slots_ :=
            s.free_slots_ + (drainLevel id q (s.levels_ s.best_price_index_).queue_).freed }
          s.best_price_index_
          ⟨(s.levels_ s.best_price_index_).total_quantity_ -
            (drainLevel id q (s.levels_ s.best_price_index_).queue_).traded,
            (drainLevel id q (s.levels_ s.best_price_index_).queue_).rest⟩).levels_
          s.best_price_index_).total_quantity_
        rw [setLevel_levels_self]
        show 0 < (s.levels_ s.best_price_index_).total_quantity_ -
          (drainLevel id q (s.levels_ s.best_price_index_).queue_).traded
        omega
      · simp only [setLevel_best] at hbi
        rw [betterIdx_false_iff] at hbi
        have hieq : i ≠ s.best_price_index_ := by
          show ¬ i = s.best_price_index_
          intro h
          rw [h] at hbi
          simp at hbi
        rw [setLevel_levels_ne _ _ _ _ hieq]
        exact hbet i hi ((betterIdx_false_iff _ _).mpr (by simpa using hbi))
    · -- trade facts
      intro t ht
      obtain ⟨htk, o, ho, hm1, hm2, _⟩ := hts t ht
      exact ⟨htk, by rw [hm2, (hords o ho).2], o, ho, hm1, hm2⟩
    · -- queue refinement
      intro i o ho
      by_cases hieq : i = s.best_price_index_
      · subst hieq
        rw [setLevel_levels_self] at ho
        exact hrsrc o ho
      · rw [setLevel_levels_ne _ _ _ _ hieq] at ho
        exact ⟨o, ho, rfl, rfl⟩

/-- Everything one `match_sell` outer iteration guarantees on a well-formed
bid side whose cursor points at a non-empty level; mirror image of
`matchBuyStep_spec` (the cursor moves strictly down or to the sentinel). -/
theorem matchSellStep_spec (s : OrderBookSide) (q id : Nat)
    (hs : sideInvDir true s)
    (hblt : s.best_price_index_ < NUM_LEVELS)
    (hbpos : 0 < (s.levels_ s.best_price_index_).total_quantity_) :
    sideInvDir true (matchSellStep s q id).1 ∧
    (matchSellStep s q id).1.is_bid_ = s.is_bid_ ∧
    (matchSellStep s q id).2.traded + (matchSellStep s q id).2.remaining = q ∧
    (matchSellStep s q id).2.traded = tradeSum (matchSellStep s q id).2.trades ∧
    (∀ t ∈ (matchSellStep s q id).2.trades, t.taker_order_id = id ∧
      t.price = levelPrice s.best_price_index_ ∧
      ∃ o ∈ (s.levels_ s.best_price_index_).queue_,
        t.maker_order_id = o.order_id_ ∧ t.price = o.price_) ∧
    (((matchSellStep s q id).1.best_price_index_ < s.best_price_index_ ∨
        (matchSellStep s q id).1.best_price_index_ = NUM_LEVELS) ∨
      ((matchSellStep s q id).1.best_price_index_ = s.best_price_index_ ∧
        (matchSellStep s q id).2.remaining = 0)) ∧
    (∀ i, ∀ o ∈ ((matchSellStep s q id).1.levels_ i).queue_,
      ∃ o' ∈ (s.levels_ i).queue_,
        o.order_id_ = o'.order_id_ ∧ o.price_ = o'.price_) := by
  obtain ⟨hlv, hcur⟩ := hs
  obtain ⟨hsum, hords⟩ := hlv s.best_price_index_ hblt
  have hqne : (s.levels_ s.best_price_index_).queue_ ≠ [] := by
    intro hnil
    rw [hnil] at hsum
    simp at hsum
    omega
  rcases hcur with ⟨hne, _⟩ | ⟨_, _, hbet⟩
  · exact absurd hne (Nat.ne_of_lt hblt)
  have hrem := drainLevel_remaining id (s.levels_ s.best_price_index_).queue_ q
  have htr := drainLevel_traded id (s.levels_ s.best_price_index_).queue_ q
  have hqs := drainLevel_queueSum id (s.levels_ s.best_price_index_).queue_ q
  have hro := drainLevel_rest_orders id (levelPrice s.best_price_index_)
    (s.levels_ s.best_price_index_).queue_ q hords
  have hrsrc := drainLevel_rest_src id (s.levels_ s.best_price_index_).queue_ q
  have hts := drainLevel_trades_src id (s.levels_ s.best_price_index_).queue_ q
  by_cases hrest : (drainLevel id q (s.levels_ s.best_price_index_).queue_).rest = []
  · -- the level was fully depleted: the bid depletion scan runs
    have htz : (drainLevel id q (s.levels_ s.best_price_index_).queue_).traded =
        (s.levels_ s.best_price_index_).total_quantity_ := by
      rw [hrest] at hqs
      simp at hqs
      omega
    simp only [matchSellStep, if_pos (And.intro hqne hrest)]
    obtain ⟨hE1, hE2, hE3, hE4, hE5, hE6⟩ :=
      afterEmptyBid_spec
        (setLevel { s with free_slots_ :=
            s.free_slots_ + (drainLevel id q (s.levels_ s.best_price_index_).queue_).freed }
          s.best_price_index_
          ⟨(s.levels_ s.best_price_index_).total_quantity_ -
            (drainLevel id q (s.levels_ s.best_price_index_).queue_).traded,
            (drainLevel id q (s.levels_ s.best_price_index_).queue_).rest⟩)
        s.best_price_index_ hblt
    refine ⟨⟨?_, ?_⟩, ?_, hrem, htr, ?_, Or.inl hE4, ?_⟩
    · -- levelOk everywhere after depletion
      intro i hi
      rw [hE1]
      by_cases hieq : i = s.best_price_index_
      · subst hieq
        rw [setLevel_levels_self]
        refine ⟨?_, ?_⟩
        · show (s.levels_ s.best_price_index_).total_quantity_ -
            (drainLevel id q (s.levels_ s.best_price_index_).queue_).traded =
            queueSum (drainLevel id q (s.levels_ s.best_price_index_).queue_).rest
          rw [hrest]
          simp
          omega
        · intro o ho
          exact hro o ho
      · rw [setLevel_levels_ne _ _ _ _ hieq]
        exact hlv i hi
    · -- cursor invariant after depletion
      rcases hE4 with hlow | hNN
      · right
        have hlt2 : (update_best_bid_after_empty
            (setLevel { s with free_slots_ :=
              s.free_slots_ + (drainLevel id q (s.levels_ s.best_price_index_).queue_).freed }
            s.best_price_index_
            ⟨(s.levels_ s.best_price_index_).total_quantity_ -
              (drainLevel id q (s.levels_ s.best_price_index_).queue_).traded,
              (drainLevel id q (s.levels_ s.best_price_index_).queue_).rest⟩)
            s.best_price_index_).best_price_index_ < NUM_LEVELS := by omega
        refine ⟨hlt2, ?_, fun i hi hbi => ?_⟩
        · rw [hE1]
          exact hE5 hlt2
        · rw [hE1]
          rw [betterIdx_true_iff] at hbi
          by_cases hieq : i = s.best_price_index_
          · subst hieq
            rw [setLevel_levels_self]
            show (s.levels_ s.best_price_index_).total_quantity_ -
              (drainLevel id q (s.levels_ s.best_price_index_).queue_).traded = 0
            omega
          · rcases Nat.lt_or_ge i s.best_price_index_ with h | h
            · exact hE6 i h (Or.inl hbi)
            · rw [setLevel_levels_ne _ _ _ _ hieq]
              exact hbet i hi ((betterIdx_true_iff _ _).mpr (by omega))
      · left
        refine ⟨hNN, fun i hi => ?_⟩
        rw [hE1]
        by_cases hieq : i = s.best_price_index_
        · subst hieq
          rw [setLevel_levels_self]
          show (s.levels_ s.best_price_index_).total_quantity_ -
            (drainLevel id q (s.levels_ s.best_price_index_).queue_).traded = 0
          omega
        · rcases Nat.lt_or_ge i s.best_price_index_ with h | h
          · exact hE6 i h (Or.inr hNN)
          · rw [setLevel_levels_ne _ _ _ _ hieq]
            exact hbet i hi ((betterIdx_true_iff _ _).mpr (by omega))
    · -- is_bid_ preserved
      rw [hE3, setLevel_is_bid]
    · -- trade facts
      intro t ht
      obtain ⟨htk, o, ho, hm1, hm2, _⟩ := hts t ht
      exact ⟨htk, by rw [hm2, (hords o ho).2], o, ho, hm1, hm2⟩
    · -- queue refinement
      intro i o ho
      rw [hE1] at ho
      by_cases hieq : i = s.best_price_index_
      · subst hieq
        rw [setLevel_levels_self] at ho
        simp [hrest] at ho
      · rw [setLevel_levels_ne _ _ _ _ hieq] at ho
        exact ⟨o, ho, rfl, rfl⟩
  · -- the level keeps resting orders: the incoming quantity is exhausted
    have hcond : ¬ ((s.levels_ s.best_price_index_).queue_ ≠ [] ∧
        (drainLevel id q (s.levels_ s.best_price_index_).queue_).rest = []) :=
      fun h => hrest h.2
    simp only [matchSellStep, if_neg hcond]
    have hrpos : 0 < queueSum (drainLevel id q (s.levels_ s.best_price_index_).queue_).rest :=
      queueSum_pos _ hrest fun o ho => (hro o ho).1
    refine ⟨⟨?_, ?_⟩, by simp [setLevel], hrem, htr, ?_,
      Or.inr ⟨by simp [setLevel], drainLevel_rest_ne id _ q hrest⟩, ?_⟩
    · -- levelOk everywhere
      intro i hi
      by_cases hieq : i = s.best_price_index_
      · subst hieq
        rw [setLevel_levels_self]
        refine ⟨?_, ?_⟩
        · show (s.levels_ s.best_price_index_).total_quantity_ -
            (drainLevel id q (s.levels_ s.best_price_index_).queue_).traded =
            queueSum (drainLevel id q (s.levels_ s.best_price_index_).queue_).rest
          omega
        · intro o ho
          exact hro o ho
      · rw [setLevel_levels_ne _ _ _ _ hieq]
        exact hlv i hi
    · -- cursor invariant: cursor unchanged, level still non-empty
      right
      refine ⟨by simp [setLevel]; omega, ?_, fun i hi hbi => ?_⟩
      · simp only [setLevel_best]
        show 0 < ((setLevel { s with free_slots_ :=
            s.free_slots_ + (drainLevel id q (s.levels_ s.best_price_index_).queue_).freed }
          s.best_price_index_
          ⟨(s.levels_ s.best_price_index_).total_quantity_ -
            (drainLevel id q (s.levels_ s.best_price_index_).queue_).traded,
            (drainLevel id q (s.levels_ s.best_price_index_).queue_).rest⟩).levels_
          s.best_price_index_).total_quantity_
        rw [setLevel_levels_self]
        show 0 < (s.levels_ s.best_price_index_).total_quantity_ -
          (drainLevel id q (s.levels_ s.best_price_index_).queue_).traded
        omega
      · simp only [setLevel_best] at hbi
        rw [betterIdx_true_iff] at hbi
        have hieq : i ≠ s.best_price_index_ := by
          show ¬ i = s.best_price_index_
          intro h
          rw [h] at hbi
          simp at hbi
        rw [setLevel_levels_ne _ _ _ _ hieq]
        exact hbet i hi ((betterIdx_true_iff _ _).mpr (by simpa using hbi))
    · -- trade facts
      intro t ht
      obtain ⟨htk, o, ho, hm1, hm2, _⟩ := hts t ht
      exact ⟨htk, by rw [hm2, (hords o ho).2], o, ho, hm1, hm2⟩
    · -- queue refinement
      intro i o ho
      by_cases hieq : i = s.best_price_index_
      · subst hieq
        rw [setLevel_levels_self] at ho
        exact hrsrc o ho
      · rw [setLevel_levels_ne _ _ _ _ hieq] at ho
        exact ⟨o, ho, rfl, rfl⟩

/-! ### The full matching loops -/

/-- Master lemma for `match_buy` on a well-formed ask side: with enough fuel
the loop terminates, preserves the side invariant, conserves quantity, and
every emitted trade is taken by the incoming id at a maker's resting price
that crosses the incoming price. -/
theorem matchBuy_master : ∀ (fuel : Nat) (s : OrderBookSide) (p q id : Nat),
    sideInvDir false s → NUM_LEVELS + 1 - s.best_price_index_ ≤ fuel →
    ∃ s' ts rem, matchBuyFuel fuel s p q id = some (s', ts, rem) ∧
      sideInvDir false s' ∧ s'.is_bid_ = s.is_bid_ ∧
      q = tradeSum ts + rem ∧
      ∀ t ∈ ts, t.taker_order_id = id ∧ t.price ≤ p ∧
        ∃ i, i < NUM_LEVELS ∧ ∃ o ∈ (s.levels_ i).queue_,
          t.maker_order_id = o.order_id_ ∧ t.price = o.price_ := by
  intro fuel
  induction fuel with
  | zero =>
    intro s p q id hs hf
    exfalso
    rcases hs.2 with ⟨h1, _⟩ | ⟨h1, _, _⟩ <;> omega
  | succ n ih =>
    intro s p q id hs hf
    by_cases hq : q = 0
    · exact ⟨s, [], q, by simp [matchBuyFuel, hq], hs, rfl, by simp, by simp⟩
    by_cases hb : s.best_price_index_ = NUM_LEVELS
    · exact ⟨s, [], q, by simp [matchBuyFuel, hq, hb], hs, rfl, by simp, by simp⟩
    by_cases hcross : levelPrice s.best_price_index_ ≤ p
    swap
    · exact ⟨s, [], q, by simp [matchBuyFuel, hq, hb, hcross], hs, rfl, by simp, by simp⟩
    have hblt : s.best_price_index_ < NUM_LEVELS := by
      rcases hs.2 with ⟨h1, _⟩ | ⟨h1, _, _⟩
      · exact absurd h1 hb
      · exact h1
    have hbpos : 0 < (s.levels_ s.best_price_index_).total_quantity_ := by
      rcases hs.2 with ⟨h1, _⟩ | ⟨_, h2, _⟩
      · exact absurd h1 hb
      · exact h2
    obtain ⟨hInv2, hBid2, hRem2, hTr2, hTrades2, hMove, hRefine⟩ :=
      matchBuyStep_spec s q id hs hblt hbpos
    rcases hMove with hup | ⟨hsame, hzero⟩
    · -- cursor moved strictly up: recurse
      have hf2 : NUM_LEVELS + 1 - (matchBuyStep s q id).1.best_price_index_ ≤ n := by
        omega
      obtain ⟨s', ts2, rem, heq, hInv', hBid', hCons', hT'⟩ :=
        ih (matchBuyStep s q id).1 p (matchBuyStep s q id).2.remaining id hInv2 hf2
      refine ⟨s', (matchBuyStep s q id).2.trades ++ ts2, rem, ?_, hInv',
        by rw [hBid', hBid2], ?_, ?_⟩
      · simp only [matchBuyFuel, if_neg hq, if_neg hb, if_neg (not_not_intro hcross), heq]
      · rw [tradeSum_append]
        omega
      · intro t ht
        rcases List.mem_append.mp ht with h | h
        · obtain ⟨htk, hpr, o, ho, hmk, hpo⟩ := hTrades2 t h
          refine ⟨htk, ?_, s.best_price_index_, hblt, o, ho, hmk, hpo⟩
          rw [hpr]
          exact hcross
        · obtain ⟨htk, hple, i, hiN, o, ho, hmk, hpo⟩ := hT' t h
          obtain ⟨o', ho', hid, hpc⟩ := hRefine i o ho
          exact ⟨htk, hple, i, hiN, o', ho', by rw [hmk, hid], by rw [hpo, hpc]⟩
    · -- incoming order exhausted at this level: recursion exits at once
      obtain ⟨m, rfl⟩ : ∃ m, n = m + 1 := ⟨n - 1, by omega⟩
      have heq0 : matchBuyFuel (m + 1) (matchBuyStep s q id).1 p
          (matchBuyStep s q id).2.remaining id = some ((matchBuyStep s q id).1, [], 0) := by
        rw [hzero]
        simp [matchBuyFuel]
      refine ⟨(matchBuyStep s q id).1, (matchBuyStep s q id).2.trades ++ [], 0, ?_,
        hInv2, hBid2, ?_, ?_⟩
      · conv_lhs => rw [matchBuyFuel]
        rw [if_neg hq, if_neg hb, if_neg (not_not_intro hcross)]
        simp only [heq0]
      · rw [tradeSum_append]
        simp only [tradeSum_nil]
        omega
      · intro t ht
        rcases List.mem_append.mp ht with h | h
        · obtain ⟨htk, hpr, o, ho, hmk, hpo⟩ := hTrades2 t h
          refine ⟨htk, ?_, s.best_price_index_, hblt, o, ho, hmk, hpo⟩
          rw [hpr]
          exact hcross
        · simp at h

/-- Fuel bound under which `match_sell` is proved to terminate: the bid
cursor only moves down, so `best_price_index_ + 2` outer iterations suffice
(one per remaining level plus the final exit check). -/
def sellBound (s : OrderBookSide) : Nat :=
  if s.best_price_index_ = NUM_LEVELS then 1 else s.best_price_index_ + 2

/-- Master lemma for `match_sell` on a well-formed bid side; mirror image of
`matchBuy_master`. -/
theorem matchSell_master : ∀ (fuel : Nat) (s : OrderBookSide) (p q id : Nat),
    sideInvDir true s → sellBound s ≤ fuel →
    ∃ s' ts rem, matchSellFuel fuel s p q id = some (s', ts, rem) ∧
      sideInvDir true s' ∧ s'.is_bid_ = s.is_bid_ ∧
      q = tradeSum ts + rem ∧
      ∀ t ∈ ts, t.taker_order_id = id ∧ p ≤ t.price ∧
        ∃ i, i < NUM_LEVELS ∧ ∃ o ∈ (s.levels_ i).queue_,
          t.maker_order_id = o.order_id_ ∧ t.price = o.price_ := by
  intro fuel
  induction fuel with
  | zero =>
    intro s p q id hs hf
    exfalso
    unfold sellBound at hf
    split at hf <;> omega
  | succ n ih =>
    intro s p q id hs hf
    by_cases hq : q = 0
    · exact ⟨s, [], q, by simp [matchSellFuel, hq], hs, rfl, by simp, by simp⟩
    by_cases hb : s.best_price_index_ = NUM_LEVELS
    · exact ⟨s, [], q, by simp [matchSellFuel, hq, hb], hs, rfl, by simp, by simp⟩
    by_cases hcross : p ≤ levelPrice s.best_price_index_
    swap
    · exact ⟨s, [], q, by simp [matchSellFuel, hq, hb, hcross], hs, rfl, by simp, by simp⟩
    have hblt : s.best_price_index_ < NUM_LEVELS := by
      rcases hs.2 with ⟨h1, _⟩ | ⟨h1, _, _⟩
      · exact absurd h1 hb
      · exact h1
    have hbpos : 0 < (s.levels_ s.best_price_index_).total_quantity_ := by
      rcases hs.2 with ⟨h1, _⟩ | ⟨_, h2, _⟩
      · exact absurd h1 hb
      · exact h2
    have hfm : s.best_price_index_ + 2 ≤ n + 1 := by
      unfold sellBound at hf
      rw [if_neg hb] at hf
      exact hf
    obtain ⟨hInv2, hBid2, hRem2, hTr2, hTrades2, hMove, hRefine⟩ :=
      matchSellStep_spec s q id hs hblt hbpos
    rcases hMove with hmove | ⟨hsame, hzero⟩
    · -- cursor moved strictly down or to the sentinel: recurse
      have hf2 : sellBound (matchSellStep s q id).1 ≤ n := by
        unfold sellBound
        split
        · omega
        · rename_i hsb
          rcases hmove with h | h
          · omega
          · exact absurd h hsb
      obtain ⟨s', ts2, rem, heq, hInv', hBid', hCons', hT'⟩ :=
        ih (matchSellStep s q id).1 p (matchSellStep s q id).2.remaining id hInv2 hf2
      refine ⟨s', (matchSellStep s q id).2.trades ++ ts2, rem, ?_, hInv',
        by rw [hBid', hBid2], ?_, ?_⟩
      · simp only [matchSellFuel, if_neg hq, if_neg hb, if_neg (not_not_intro hcross), heq]
      · rw [tradeSum_append]
        omega
      · intro t ht
        rcases List.mem_append.mp ht with h | h
        · obtain ⟨htk, hpr, o, ho, hmk, hpo⟩ := hTrades2 t h
          refine ⟨htk, ?_, s.best_price_index_, hblt, o, ho, hmk, hpo⟩
          rw [hpr]
          exact hcross
        · obtain ⟨htk, hple, i, hiN, o, ho, hmk, hpo⟩ := hT' t h
          obtain ⟨o', ho', hid, hpc⟩ := hRefine i o ho
          exact ⟨htk, hple, i, hiN, o', ho', by rw [hmk, hid], by rw [hpo, hpc]⟩
    · -- incoming order exhausted at this level: recursion exits at once
      obtain ⟨m, rfl⟩ : ∃ m, n = m + 1 := ⟨n - 1, by omega⟩
      have heq0 : matchSellFuel (m + 1) (matchSellStep s q id).1 p
          (matchSellStep s q id).2.remaining id = some ((matchSellStep s q id).1, [], 0) := by
        rw [hzero]
        simp [matchSellFuel]
      refine ⟨(matchSellStep s q id).1, (matchSellStep s q id).2.trades ++ [], 0, ?_,
        hInv2, hBid2, ?_, ?_⟩
      · conv_lhs => rw [matchSellFuel]
        rw [if_neg hq, if_neg hb, if_neg (not_not_intro hcross)]
        simp only [heq0]
      · rw [tradeSum_append]
        simp only [tradeSum_nil]
        omega
      · intro t ht
        rcases List.mem_append.mp ht with h | h
        · obtain ⟨htk, hpr, o, ho, hmk, hpo⟩ := hTrades2 t h
          refine ⟨htk, ?_, s.best_price_index_, hblt, o, ho, hmk, hpo⟩
          rw [hpr]
          exact hcross
        · simp at h

/-! ### Facts about `add_order` -/

/-- An in-range price maps to a valid ladder index whose level price is the
price itself (`TICK_SIZE = 1`). -/
theorem price_to_index_spec (p : Nat) (h : priceInRange p) :
    price_to_index p < NUM_LEVELS ∧ levelPrice (price_to_index p) = p := by
  obtain ⟨h1, h2⟩ := h
  unfold price_to_index levelPrice NUM_LEVELS PRICE_MIN PRICE_MAX TICK_SIZE at *
  omega

theorem afterOrderBid_spec (s : OrderBookSide) (idx : Nat) :
    (update_best_bid_after_order s idx).levels_ = s.levels_ ∧
    (update_best_bid_after_order s idx).free_slots_ = s.free_slots_ ∧
    (update_best_bid_after_order s idx).is_bid_ = s.is_bid_ ∧
    ((s.best_price_index_ = NUM_LEVELS ∨ s.best_price_index_ < idx) →
      (update_best_bid_after_order s idx).best_price_index_ = idx) ∧
    (¬ (s.best_price_index_ = NUM_LEVELS ∨ s.best_price_index_ < idx) →
      (update_best_bid_after_order s idx).best_price_index_ = s.best_price_index_) := by
  unfold update_best_bid_after_order
  by_cases h : s.best_price_index_ = NUM_LEVELS ∨ s.best_price_index_ < idx
  · rw [if_pos h]
    exact ⟨rfl, rfl, rfl, fun _ => rfl, fun hc => absurd h hc⟩
  · rw [if_neg h]
    exact ⟨rfl, rfl, rfl, fun hc => absurd hc h, fun _ => rfl⟩

theorem afterOrderAsk_spec (s : OrderBookSide) (idx : Nat) :
    (update_best_ask_after_order s idx).levels_ = s.levels_ ∧
    (update_best_ask_after_order s idx).free_slots_ = s.free_slots_ ∧
    (update_best_ask_after_order s idx).is_bid_ = s.is_bid_ ∧
    ((s.best_price_index_ = NUM_LEVELS ∨ idx < s.best_price_index_) →
      (update_best_ask_after_order s idx).best_price_index_ = idx) ∧
    (¬ (s.best_price_index_ = NUM_LEVELS ∨ idx < s.best_price_index_) →
      (update_best_ask_after_order s idx).best_price_index_ = s.best_price_index_) := by
  unfold update_best_ask_after_order
  by_cases h : s.best_price_index_ = NUM_LEVELS ∨ idx < s.best_price_index_
  · rw [if_pos h]
    exact ⟨rfl, rfl, rfl, fun _ => rfl, fun hc => absurd h hc⟩
  · rw [if_neg h]
    exact ⟨rfl, rfl, rfl, fun hc => absurd hc h, fun _ => rfl⟩

theorem sumLevels_congr_below (s t : OrderBookSide) : ∀ n,
    (∀ j, j < n → s.levels_ j = t.levels_ j) → sumLevels s n = sumLevels t n := by
  intro n
  induction n with
  | zero => intro _; rfl
  | succ n ih =>
    intro h
    simp only [sumLevels]
    rw [ih fun j hj => h j (by omega), h n (by omega)]

theorem sumLevels_congr (s t : OrderBookSide) (h : ∀ j, s.levels_ j = t.levels_ j) :
    ∀ n, sumLevels s n = sumLevels t n :=
  fun n => sumLevels_congr_below s t n fun j _ => h j

theorem sumLevels_setLevel (s : OrderBookSide) (i : Nat) (lvl : PriceLevel) : ∀ n, i < n →
    sumLevels (setLevel s i lvl) n + (s.levels_ i).total_quantity_ =
      sumLevels s n + lvl.total_quantity_ := by
  intro n
  induction n with
  | zero => omega
  | succ n ih =>
    intro hin
    rcases Nat.lt_succ_iff_lt_or_eq.mp hin with h | h
    · have := ih h
      have hne : n ≠ i := by omega
      simp only [sumLevels, setLevel_levels_ne _ _ _ _ hne]
      omega
    · subst h
      have heq : sumLevels (setLevel s i lvl) i = sumLevels s i := by
        apply sumLevels_congr_below
        intro j hj
        exact setLevel_levels_ne _ _ _ _ (by omega)
      simp only [sumLevels, heq, setLevel_levels_self]
      omega

@[simp] theorem restOrder_is_bid (s : OrderBookSide) (price q id : Nat) :
    (restOrder s price q id).is_bid_ = s.is_bid_ := rfl

@[simp] theorem restOrder_best (s : OrderBookSide) (price q id : Nat) :
    (restOrder s price q id).best_price_index_ = s.best_price_index_ := rfl

@[simp] theorem restOrder_free (s : OrderBookSide) (price q id : Nat) :
    (restOrder s price q id).free_slots_ = s.free_slots_ - 1 := rfl

theorem restOrder_levels_self (s : OrderBookSide) (price q id : Nat) :
    (restOrder s price q id).levels_ (price_to_index price) =
      ⟨(s.levels_ (price_to_index price)).total_quantity_ + q,
        (s.levels_ (price_to_index price)).queue_ ++ [⟨id, price, q⟩]⟩ := by
  simp [restOrder]

theorem restOrder_levels_ne (s : OrderBookSide) (price q id i : Nat)
    (h : i ≠ price_to_index price) :
    (restOrder s price q id).levels_ i = s.levels_ i := by
  simp [restOrder, setLevel_levels_ne _ _ _ _ h]

theorem add_order_assert (s : OrderBookSide) (price q id : Nat)
    (h : ¬ priceInRange price) : add_order s price q id = .assertViolation := by
  unfold priceInRange at h
  simp only [add_order, if_pos h]

theorem add_order_exhausted (s : OrderBookSide) (price q id : Nat)
    (h1 : priceInRange price) (h2 : s.free_slots_ = 0) :
    add_order s price q id = .exhausted := by
  unfold priceInRange at h1
  simp only [add_order, if_neg (not_not_intro h1), if_pos h2]

/-- Cursor correctness is preserved on the bid side after resting a new order
at `idx` with positive quantity, given the insertion update's case analysis. -/
theorem cursorInv_after_order_bid (s X : OrderBookSide) (idx : Nat)
    (hcur : cursorInvDir true s) (hidx : idx < NUM_LEVELS)
    (hXlev : ∀ i, i ≠ idx → X.levels_ i = s.levels_ i)
    (hXpos : 0 < (X.levels_ idx).total_quantity_)
    (hb1 : (s.best_price_index_ = NUM_LEVELS ∨ s.best_price_index_ < idx) →
      X.best_price_index_ = idx)
    (hb2 : ¬ (s.best_price_index_ = NUM_LEVELS ∨ s.best_price_index_ < idx) →
      X.best_price_index_ = s.best_price_index_) :
    cursorInvDir true X := by
  rcases hcur with ⟨hs1, hs2⟩ | ⟨hs1, hs2, hs3⟩
  · have hX := hb1 (Or.inl hs1)
    right
    refine ⟨by omega, by rw [hX]; exact hXpos, fun i hi hbet => ?_⟩
    rw [betterIdx_true_iff, hX] at hbet
    rw [hXlev i (by omega)]
    exact hs2 i hi
  · by_cases hc : s.best_price_index_ < idx
    · have hX := hb1 (Or.inr hc)
      right
      refine ⟨by omega, by rw [hX]; exact hXpos, fun i hi hbet => ?_⟩
      rw [betterIdx_true_iff, hX] at hbet
      rw [hXlev i (by omega)]
      exact hs3 i hi ((betterIdx_true_iff _ _).mpr (by omega))
    · have hX := hb2 (by push_neg; exact ⟨by omega, by omega⟩)
      right
      refine ⟨by omega, ?_, fun i hi hbet => ?_⟩
      · rw [hX]
        by_cases hbi : s.best_price_index_ = idx
        · rw [hbi]
          exact hXpos
        · rw [hXlev _ hbi]
          exact hs2
      · rw [betterIdx_true_iff, hX] at hbet
        rw [hXlev i (by omega)]
        exact hs3 i hi ((betterIdx_true_iff _ _).mpr hbet)

/-- Cursor correctness is preserved on the ask side after resting a new order
at `idx` with positive quantity. -/
theorem cursorInv_after_order_ask (s X : OrderBookSide) (idx : Nat)
    (hcur : cursorInvDir false s) (hidx : idx < NUM_LEVELS)
    (hXlev : ∀ i, i ≠ idx → X.levels_ i = s.levels_ i)
    (hXpos : 0 < (X.levels_ idx).total_quantity_)
    (hb1 : (s.best_price_index_ = NUM_LEVELS ∨ idx < s.best_price_index_) →
      X.best_price_index_ = idx)
    (hb2 : ¬ (s.best_price_index_ = NUM_LEVELS ∨ idx < s.best_price_index_) →
      X.best_price_index_ = s.best_price_index_) :
    cursorInvDir false X := by
  rcases hcur with ⟨hs1, hs2⟩ | ⟨hs1, hs2, hs3⟩
  · have hX := hb1 (Or.inl hs1)
    right
    refine ⟨by omega, by rw [hX]; exact hXpos, fun i hi hbet => ?_⟩
    rw [betterIdx_false_iff, hX] at hbet
    rw [hXlev i (by omega)]
    exact hs2 i hi
  · by_cases hc : idx < s.best_price_index_
    · have hX := hb1 (Or.inr hc)
      right
      refine ⟨by omega, by rw [hX]; exact hXpos, fun i hi hbet => ?_⟩
      rw [betterIdx_false_iff, hX] at hbet
      rw [hXlev i (by omega)]
      exact hs3 i hi ((betterIdx_false_iff _ _).mpr (by omega))
    · have hX := hb2 (by push_neg; exact ⟨by omega, by omega⟩)
      right
      refine ⟨by omega, ?_, fun i hi hbet => ?_⟩
      · rw [hX]
        by_cases hbi : s.best_price_index_ = idx
        · rw [hbi]
          exact hXpos
        · rw [hXlev _ hbi]
          exact hs2
      · rw [betterIdx_false_iff, hX] at hbet
        rw [hXlev i (by omega)]
        exact hs3 i hi ((betterIdx_false_iff _ _).mpr hbet)

/-- Complete characterisation of a successful `add_order`: the invariant is
preserved, the side gains exactly the rested quantity, one pool slot is
consumed, the order (with the caller's id, price and quantity) sits at the
tail of its level's queue, and no other level changes. -/
theorem add_order_ok_spec (s : OrderBookSide) (price q id : Nat) (s' : OrderBookSide)
    (hinv : sideInvDir s.is_bid_ s) (hq : 1 ≤ q)
    (heq : add_order s price q id = .ok s') :
    sideInvDir s'.is_bid_ s' ∧
    s'.is_bid_ = s.is_bid_ ∧
    sideTotal s' = sideTotal s + q ∧
    s'.free_slots_ = s.free_slots_ - 1 ∧
    (s'.levels_ (price_to_index price)).queue_ =
      (s.levels_ (price_to_index price)).queue_ ++ [⟨id, price, q⟩] ∧
    (∀ i, i ≠ price_to_index price → s'.levels_ i = s.levels_ i) := by
  by_cases hr : priceInRange price
  swap
  · rw [add_order_assert s price q id hr] at heq
    simp at heq
  by_cases hf : s.free_slots_ = 0
  · rw [add_order_exhausted s price q id hr hf] at heq
    simp at heq
  obtain ⟨hidx, hlp⟩ := price_to_index_spec price hr
  have hr' : PRICE_MIN ≤ price ∧ price ≤ PRICE_MAX := hr
  simp only [add_order, if_neg (not_not_intro hr'), if_neg hf, restOrder_is_bid,
    AddResult.ok.injEq] at heq
  subst heq
  -- facts common to both directions
  have hlev_ne : ∀ i, i ≠ price_to_index price →
      ∀ Y, (Y = update_best_bid_after_order (restOrder s price q id) (price_to_index price) ∨
            Y = update_best_ask_after_order (restOrder s price q id) (price_to_index price)) →
      Y.levels_ i = s.levels_ i := by
    intro i hi Y hY
    have h1 := (afterOrderBid_spec (restOrder s price q id) (price_to_index price)).1
    have h2 := (afterOrderAsk_spec (restOrder s price q id) (price_to_index price)).1
    rcases hY with h | h <;> subst h
    · rw [h1, restOrder_levels_ne _ _ _ _ _ hi]
    · rw [h2, restOrder_levels_ne _ _ _ _ _ hi]
  have hlevOk : ∀ i, i < NUM_LEVELS →
      levelOk ((restOrder s price q id).levels_ i) (levelPrice i) := by
    intro i hi
    by_cases hieq : i = price_to_index price
    · subst hieq
      rw [restOrder_levels_self]
      obtain ⟨hsum, hords⟩ := hinv.1 _ hi
      constructor
      · show (s.levels_ (price_to_index price)).total_quantity_ + q =
          queueSum ((s.levels_ (price_to_index price)).queue_ ++ [⟨id, price, q⟩])
        rw [queueSum_append]
        simp only [queueSum_cons, queueSum_nil]
        omega
      · intro o ho
        rcases List.mem_append.mp ho with h | h
        · exact hords o h
        · simp at h
          subst h
          exact ⟨hq, hlp.symm⟩
    · rw [restOrder_levels_ne _ _ _ _ _ hieq]
      exact hinv.1 i hi
  have hpos : 0 < ((restOrder s price q id).levels_ (price_to_index price)).total_quantity_ := by
    rw [restOrder_levels_self]
    show 0 < (s.levels_ (price_to_index price)).total_quantity_ + q
    omega
  have htot : ∀ Y : OrderBookSide, Y.levels_ = (restOrder s price q id).levels_ →
      sideTotal Y = sideTotal s + q := by
    intro Y hY
    have h1 : sumLevels Y NUM_LEVELS =
        sumLevels (setLevel s (price_to_index price)
          ⟨(s.levels_ (price_to_index price)).total_quantity_ + q,
            (s.levels_ (price_to_index price)).queue_ ++ [⟨id, price, q⟩]⟩) NUM_LEVELS := by
      apply sumLevels_congr
      intro j
      rw [hY]
      rfl
    have h2 := sumLevels_setLevel s (price_to_index price)
      ⟨(s.levels_ (price_to_index price)).total_quantity_ + q,
        (s.levels_ (price_to_index price)).queue_ ++ [⟨id, price, q⟩]⟩ NUM_LEVELS hidx
    unfold sideTotal
    rw [h1]
    simp only at h2
    omega
  by_cases hbid : s.is_bid_ = true
  swap
  · -- ask side: the `is_bid_` test selects the ask cursor update
    rw [if_neg hbid]
    rw [Bool.not_eq_true] at hbid
    rw [hbid] at hinv
    obtain ⟨hA1, hA2, hA3, hA4, hA5⟩ :=
      afterOrderAsk_spec (restOrder s price q id) (price_to_index price)
    refine ⟨?_, ?_, ?_, ?_, ?_, ?_⟩
    · rw [hA3, restOrder_is_bid, hbid]
      refine ⟨fun i hi => ?_, ?_⟩
      · rw [hA1]
        exact hlevOk i hi
      · refine cursorInv_after_order_ask s _ (price_to_index price) hinv.2 hidx
          (fun i hi => hlev_ne i hi _ (Or.inr rfl)) (by rw [hA1]; exact hpos)
          (fun h => hA4 (by simpa using h)) (fun h => ?_)
        rw [hA5 (by simpa using h)]
        simp
    · rw [hA3, restOrder_is_bid]
    · exact htot _ hA1
    · rw [hA2, restOrder_free]
    · rw [hA1, restOrder_levels_self]
    · intro i hi
      exact hlev_ne i hi _ (Or.inr rfl)
  · -- bid side
    rw [if_pos hbid]
    rw [hbid] at hinv
    obtain ⟨hA1, hA2, hA3, hA4, hA5⟩ :=
      afterOrderBid_spec (restOrder s price q id) (price_to_index price)
    refine ⟨?_, ?_, ?_, ?_, ?_, ?_⟩
    · rw [hA3, restOrder_is_bid, hbid]
      refine ⟨fun i hi => ?_, ?_⟩
      · rw [hA1]
        exact hlevOk i hi
      · refine cursorInv_after_order_bid s _ (price_to_index price) hinv.2 hidx
          (fun i hi => hlev_ne i hi _ (Or.inl rfl)) (by rw [hA1]; exact hpos)
          (fun h => hA4 (by simpa using h)) (fun h => ?_)
        rw [hA5 (by simpa using h)]
        simp
    · rw [hA3, restOrder_is_bid]
    · exact htot _ hA1
    · rw [hA2, restOrder_free]
    · rw [hA1, restOrder_levels_self]
    · intro i hi
      exact hlev_ne i hi _ (Or.inl rfl)

theorem add_order_not_assert (s : OrderBookSide) (price q id : Nat)
    (h : priceInRange price) : add_order s price q id ≠ .assertViolation := by
  unfold priceInRange at h
  simp only [add_order, if_neg (not_not_intro h)]
  split <;> simp

theorem add_order_exhausted_free (s : OrderBookSide) (price q id : Nat)
    (h : priceInRange price) (he : add_order s price q id = .exhausted) :
    s.free_slots_ = 0 := by
  by_contra hf
  unfold priceInRange at h
  simp only [add_order, if_neg (not_not_intro h), if_neg hf] at he
  exact absurd he (by simp)

theorem add_order_ok_free (s : OrderBookSide) (price q id : Nat) (s' : OrderBookSide)
    (h : add_order s price q id = .ok s') : s.free_slots_ ≠ 0 := by
  intro hf
  by_cases hr : priceInRange price
  · rw [add_order_exhausted s price q id hr hf] at h
    simp at h
  · rw [add_order_assert s price q id hr] at h
    simp at h

/-! ### Wrappers at the canonical fuel -/

theorem match_buy_spec (s : OrderBookSide) (p q id : Nat) (hs : sideInvDir false s) :
    ∃ s' ts rem, match_buy s p q id = some (s', ts, rem) ∧ sideInvDir false s' ∧
      s'.is_bid_ = s.is_bid_ ∧ q = tradeSum ts + rem ∧
      ∀ t ∈ ts, t.taker_order_id = id ∧ t.price ≤ p ∧
        ∃ i, i < NUM_LEVELS ∧ ∃ o ∈ (s.levels_ i).queue_,
          t.maker_order_id = o.order_id_ ∧ t.price = o.price_ := by
  have hb : NUM_LEVELS + 1 - s.best_price_index_ ≤ FUEL := by
    unfold FUEL
    omega
  exact matchBuy_master FUEL s p q id hs hb

theorem match_sell_spec (s : OrderBookSide) (p q id : Nat) (hs : sideInvDir true s) :
    ∃ s' ts rem, match_sell s p q id = some (s', ts, rem) ∧ sideInvDir true s' ∧
      s'.is_bid_ = s.is_bid_ ∧ q = tradeSum ts + rem ∧
      ∀ t ∈ ts, t.taker_order_id = id ∧ p ≤ t.price ∧
        ∃ i, i < NUM_LEVELS ∧ ∃ o ∈ (s.levels_ i).queue_,
          t.maker_order_id = o.order_id_ ∧ t.price = o.price_ := by
  have hb : sellBound s ≤ FUEL := by
    unfold sellBound FUEL
    split
    · omega
    · rename_i h
      rcases hs.2 with ⟨h1, _⟩ | ⟨h1, _, _⟩
      · exact absurd h1 h
      · omega
  exact matchSell_master FUEL s p q id hs hb

theorem match_buy_zero (s : OrderBookSide) (p id : Nat) :
    match_buy s p 0 id = some (s, [], 0) := by
  unfold match_buy FUEL
  simp [matchBuyFuel]

theorem match_sell_zero (s : OrderBookSide) (p id : Nat) :
    match_sell s p 0 id = some (s, [], 0) := by
  unfold match_sell FUEL
  simp [matchSellFuel]

/-! ### One full submission -/

/-- Master specification of one `submit_order` call on a well-formed book:
the call terminates, the book invariant is preserved, the trades never exceed
the incoming quantity, every trade is taken by the incoming order against a
resting maker at the maker's crossing price, an in-range submission rests
exactly the unmatched remainder when a pool slot is free (and nothing when the
pool is full), a full own-side pool leaves the own side untouched, and the
returned trades are exactly the matching phase's trades. -/
theorem submit_order_spec (ob : OrderBook) (price q id : Nat) (b : Bool)
    (hinv : bookInv ob) :
    ∃ out, submit_order ob price q id b = some out ∧
      bookInv out.book ∧
      tradeSum out.trades ≤ q ∧
      (∀ t ∈ out.trades, t.taker_order_id = id ∧
        (b = true → t.price ≤ price) ∧ (b = false → price ≤ t.price) ∧
        ∃ i, i < NUM_LEVELS ∧ ∃ o ∈ ((contraSide ob b).levels_ i).queue_,
          t.maker_order_id = o.order_id_ ∧ t.price = o.price_) ∧
      (priceInRange price →
        sideTotal (ownSide out.book b) = sideTotal (ownSide ob b) +
          (if (ownSide ob b).free_slots_ = 0 then 0 else q - tradeSum out.trades) ∧
        out.assertHit = false) ∧
      ((ownSide ob b).free_slots_ = 0 → ownSide out.book b = ownSide ob b) ∧
      (∃ c' rem, matchContra ob b price q id = some (c', out.trades, rem) ∧
        contraSide out.book b = c') := by
  obtain ⟨hbI, haI, hbB, haB⟩ := hinv
  by_cases hq : q = 0
  · subst hq
    refine ⟨⟨ob, [], false⟩, by simp [submit_order], ⟨hbI, haI, hbB, haB⟩, by simp,
      by simp, ?_, fun _ => rfl, ?_⟩
    · intro _
      refine ⟨?_, rfl⟩
      simp
    · cases b
      · exact ⟨ob.bids, 0, match_sell_zero ob.bids price id, rfl⟩
      · exact ⟨ob.asks, 0, match_buy_zero ob.asks price id, rfl⟩
  cases b
  · -- incoming ask: match against the bid side, rest on the ask side
    obtain ⟨bids', ts, rem, heqM, hInv', hBid', hCons, hT⟩ :=
      match_sell_spec ob.bids price q id hbI
    have heqM' : match_sell ob.bids price q id = some (bids', ts, rem) := heqM
    have hT2 : ∀ out : SubmitOutcome, out.trades = ts →
        ∀ t ∈ out.trades, t.taker_order_id = id ∧
          (false = true → t.price ≤ price) ∧ (false = false → price ≤ t.price) ∧
          ∃ i, i < NUM_LEVELS ∧ ∃ o ∈ ((contraSide ob false).levels_ i).queue_,
            t.maker_order_id = o.order_id_ ∧ t.price = o.price_ := by
      intro out hout t ht
      rw [hout] at ht
      obtain ⟨h1, h2, h3⟩ := hT t ht
      exact ⟨h1, fun h => absurd h (by simp), fun _ => h2, h3⟩
    by_cases hrem : 0 < rem
    · rcases hadd : add_order ob.asks price rem id with _ | _ | asks'
      · -- out-of-range price: the assert fires after matching, remainder lost
        refine ⟨⟨⟨bids', ob.asks⟩, ts, true⟩, ?_, ⟨hInv', haI, by rw [hBid', hbB], haB⟩,
          (by omega : tradeSum ts ≤ q), hT2 _ rfl, ?_, fun _ => rfl, bids', rem, ?_, rfl⟩
        · simp only [submit_order, if_neg hq, if_neg Bool.false_ne_true, heqM',
            if_pos hrem, hadd]
        · intro hr
          exact absurd hadd (add_order_not_assert ob.asks price rem id hr)
        · simp only [matchContra]
          exact heqM'
      · -- pool exhausted: remainder dropped, ask side untouched
        have hfree := fun hr => add_order_exhausted_free ob.asks price rem id hr hadd
        refine ⟨⟨⟨bids', ob.asks⟩, ts, false⟩, ?_, ⟨hInv', haI, by rw [hBid', hbB], haB⟩,
          (by omega : tradeSum ts ≤ q), hT2 _ rfl, ?_, fun _ => rfl, bids', rem, ?_, rfl⟩
        · simp only [submit_order, if_neg hq, if_neg Bool.false_ne_true, heqM',
            if_pos hrem, hadd]
        · intro hr
          refine ⟨?_, rfl⟩
          show sideTotal ob.asks = sideTotal ob.asks +
            (if ob.asks.free_slots_ = 0 then 0 else q - tradeSum ts)
          rw [if_pos (hfree hr)]
          omega
        · simp only [matchContra]
          exact heqM'
      · -- remainder rested on the ask side
        obtain ⟨hO1, hO2, hO3, hO4, hO5, hO6⟩ := add_order_ok_spec ob.asks price rem id asks'
          (by rw [haB]; exact haI) hrem hadd
        have hA : asks'.is_bid_ = false := by rw [hO2, haB]
        refine ⟨⟨⟨bids', asks'⟩, ts, false⟩, ?_, ⟨hInv', by rw [hA] at hO1; exact hO1,
          by rw [hBid', hbB], hA⟩, (by omega : tradeSum ts ≤ q), hT2 _ rfl, ?_,
          fun hf => absurd hf (add_order_ok_free _ _ _ _ _ hadd), bids', rem, ?_, rfl⟩
        · simp only [submit_order, if_neg hq, if_neg Bool.false_ne_true, heqM',
            if_pos hrem, hadd]
        · intro hr
          refine ⟨?_, rfl⟩
          show sideTotal asks' = sideTotal ob.asks +
            (if ob.asks.free_slots_ = 0 then 0 else q - tradeSum ts)
          rw [if_neg (add_order_ok_free _ _ _ _ _ hadd), hO3]
          omega
        · simp only [matchContra]
          exact heqM'
    · -- fully matched: nothing to rest
      refine ⟨⟨⟨bids', ob.asks⟩, ts, false⟩, ?_, ⟨hInv', haI, by rw [hBid', hbB], haB⟩,
        (by omega : tradeSum ts ≤ q), hT2 _ rfl, ?_, fun _ => rfl, bids', rem, ?_, rfl⟩
      · simp only [submit_order, if_neg hq, if_neg Bool.false_ne_true, heqM', if_neg hrem]
      · intro hr
        refine ⟨?_, rfl⟩
        show sideTotal ob.asks = sideTotal ob.asks +
          (if ob.asks.free_slots_ = 0 then 0 else q - tradeSum ts)
        have h0 : q - tradeSum ts = 0 := by omega
        rw [h0, ite_self]
        omega
      · simp only [matchContra]
        exact heqM'
  · -- incoming bid: match against the ask side, rest on the bid side
    obtain ⟨asks', ts, rem, heqM, hInv', hBid', hCons, hT⟩ :=
      match_buy_spec ob.asks price q id haI
    have heqM' : match_buy ob.asks price q id = some (asks', ts, rem) := heqM
    have hT2 : ∀ out : SubmitOutcome, out.trades = ts →
        ∀ t ∈ out.trades, t.taker_order_id = id ∧
          (true = true → t.price ≤ price) ∧ (true = false → price ≤ t.price) ∧
          ∃ i, i < NUM_LEVELS ∧ ∃ o ∈ ((contraSide ob true).levels_ i).queue_,
            t.maker_order_id = o.order_id_ ∧ t.price = o.price_ := by
      intro out hout t ht
      rw [hout] at ht
      obtain ⟨h1, h2, h3⟩ := hT t ht
      exact ⟨h1, fun _ => h2, fun h => absurd h (by simp), h3⟩
    by_cases hrem : 0 < rem
    · rcases hadd : add_order ob.bids price rem id with _ | _ | bids'
      · refine ⟨⟨⟨ob.bids, asks'⟩, ts, true⟩, ?_, ⟨hbI, hInv', hbB, by rw [hBid', haB]⟩,
          (by omega : tradeSum ts ≤ q), hT2 _ rfl, ?_, fun _ => rfl, asks', rem, ?_, rfl⟩
        · simp only [submit_order, if_neg hq, if_pos rfl, if_true, heqM', if_pos hrem, hadd]
        · intro hr
          exact absurd hadd (add_order_not_assert ob.bids price rem id hr)
        · simp only [matchContra]
          exact heqM'
      · have hfree := fun hr => add_order_exhausted_free ob.bids price rem id hr hadd
        refine ⟨⟨⟨ob.bids, asks'⟩, ts, false⟩, ?_, ⟨hbI, hInv', hbB, by rw [hBid', haB]⟩,
          (by omega : tradeSum ts ≤ q), hT2 _ rfl, ?_, fun _ => rfl, asks', rem, ?_, rfl⟩
        · simp only [submit_order, if_neg hq, if_pos rfl, if_true, heqM', if_pos hrem, hadd]
        · intro hr
          refine ⟨?_, rfl⟩
          show sideTotal ob.bids = sideTotal ob.bids +
            (if ob.bids.free_slots_ = 0 then 0 else q - tradeSum ts)
          rw [if_pos (hfree hr)]
          omega
        · simp only [matchContra]
          exact heqM'
      · obtain ⟨hO1, hO2, hO3, hO4, hO5, hO6⟩ := add_order_ok_spec ob.bids price rem id bids'
          (by rw [hbB]; exact hbI) hrem hadd
        have hA : bids'.is_bid_ = true := by rw [hO2, hbB]
        refine ⟨⟨⟨bids', asks'⟩, ts, false⟩, ?_, ⟨by rw [hA] at hO1; exact hO1, hInv',
          hA, by rw [hBid', haB]⟩, (by omega : tradeSum ts ≤ q), hT2 _ rfl, ?_,
          fun hf => absurd hf (add_order_ok_free _ _ _ _ _ hadd), asks', rem, ?_, rfl⟩
        · simp only [submit_order, if_neg hq, if_pos rfl, if_true, heqM', if_pos hrem, hadd]
        · intro hr
          refine ⟨?_, rfl⟩
          show sideTotal bids' = sideTotal ob.bids +
            (if ob.bids.free_slots_ = 0 then 0 else q - tradeSum ts)
          rw [if_neg (add_order_ok_free _ _ _ _ _ hadd), hO3]
          omega
        · simp only [matchContra]
          exact heqM'
    · refine ⟨⟨⟨ob.bids, asks'⟩, ts, false⟩, ?_, ⟨hbI, hInv', hbB, by rw [hBid', haB]⟩,
        (by omega : tradeSum ts ≤ q), hT2 _ rfl, ?_, fun _ => rfl, asks', rem, ?_, rfl⟩
      · simp only [submit_order, if_neg hq, if_pos rfl, if_true, heqM', if_neg hrem]
      · intro hr
        refine ⟨?_, rfl⟩
        show sideTotal ob.bids = sideTotal ob.bids +
          (if ob.bids.free_slots_ = 0 then 0 else q - tradeSum ts)
        have h0 : q - tradeSum ts = 0 := by omega
        rw [h0, ite_self]
        omega
      · simp only [matchContra]
        exact heqM'

/-! ### Reachability -/

theorem sideInv_init (bb b : Bool) : sideInvDir b (OrderBookSide.init bb) :=
  ⟨fun _ _ => ⟨rfl, fun o ho => absurd ho (List.not_mem_nil o)⟩,
    Or.inl ⟨rfl, fun _ _ => rfl⟩⟩

theorem bookInv_init : bookInv OrderBook.init :=
  ⟨sideInv_init true true, sideInv_init false false, rfl, rfl⟩

/-- Every reachable book state satisfies the full book invariant. -/
theorem reachable_bookInv (ob : OrderBook) (h : Reachable ob) : bookInv ob := by
  induction h with
  | init => exact bookInv_init
  | step hr heq ih =>
    obtain ⟨out', hsub, hinv', _⟩ := submit_order_spec _ _ _ _ _ ih
    rw [hsub] at heq
    injection heq with heq
    rw [← heq]
    exact hinv'

/-! ### Claim statements -/

/-- The bid-side cursor claim: sentinel with an empty ladder, or the
highest-index non-empty level. -/
def cursorClaimBid (s : OrderBookSide) : Prop :=
  (s.best_price_index_ = NUM_LEVELS ∧
    ∀ i, i < NUM_LEVELS → (s.levels_ i).total_quantity_ = 0) ∨
  (s.best_price_index_ < NUM_LEVELS ∧
    0 < (s.levels_ s.best_price_index_).total_quantity_ ∧
    ∀ i, i < NUM_LEVELS → s.best_price_index_ < i →
      (s.levels_ i).total_quantity_ = 0)

/-- The ask-side cursor claim: sentinel with an empty ladder, or the
lowest-index non-empty level. -/
def cursorClaimAsk (s : OrderBookSide) : Prop :=
  (s.best_price_index_ = NUM_LEVELS ∧
    ∀ i, i < NUM_LEVELS → (s.levels_ i).total_quantity_ = 0) ∨
  (s.best_price_index_ < NUM_LEVELS ∧
    0 < (s.levels_ s.best_price_index_).total_quantity_ ∧
    ∀ i, i < NUM_LEVELS → i < s.best_price_index_ →
      (s.levels_ i).total_quantity_ = 0)

instance (s : OrderBookSide) : Decidable (cursorClaimBid s) := by
  unfold cursorClaimBid; infer_instance

instance (s : OrderBookSide) : Decidable (cursorClaimAsk s) := by
  unfold cursorClaimAsk; infer_instance

/-- C2: after every submission (in every state reachable from the empty book),
each side's `best_price_index_` either equals the sentinel `NUM_LEVELS` with
every level empty, or is the true best non-empty level of that side (highest
index for bids, lowest index for asks). -/
theorem C2_cursor_invariant (ob : OrderBook) (h : Reachable ob) :
    cursorClaimBid ob.bids ∧ cursorClaimAsk ob.asks := by
  obtain ⟨hbI, haI, _, _⟩ := reachable_bookInv ob h
  constructor
  · rcases hbI.2 with ⟨h1, h2⟩ | ⟨h1, h2, h3⟩
    · exact Or.inl ⟨h1, h2⟩
    · exact Or.inr ⟨h1, h2, fun i hi hlt => h3 i hi ((betterIdx_true_iff _ _).mpr hlt)⟩
  · rcases haI.2 with ⟨h1, h2⟩ | ⟨h1, h2, h3⟩
    · exact Or.inl ⟨h1, h2⟩
    · exact Or.inr ⟨h1, h2, fun i hi hlt => h3 i hi ((betterIdx_false_iff _ _).mpr hlt)⟩

theorem C2_cursor_invariant_witness :
    cursorClaimBid OrderBook.init.bids ∧ cursorClaimAsk OrderBook.init.asks :=
  C2_cursor_invariant OrderBook.init Reachable.init

/-- The aggregate claim for one side: every level's aggregate equals the sum
of its queued quantities, and it is zero exactly when the queue is empty. -/
def aggregateOk (s : OrderBookSide) : Prop :=
  ∀ i, i < NUM_LEVELS →
    (s.levels_ i).total_quantity_ = queueSum (s.levels_ i).queue_ ∧
    ((s.levels_ i).total_quantity_ = 0 ↔ (s.levels_ i).queue_ = [])

instance (s : OrderBookSide) : Decidable (aggregateOk s) := by
  unfold aggregateOk queueSum; infer_instance

/-- C7: in every reachable state, every price level's `total_quantity_`
equals the sum of the remaining quantities of the orders in its FIFO queue,
and the aggregate is zero iff the queue is empty. -/
theorem C7_aggregate_invariant (ob : OrderBook) (h : Reachable ob) :
    aggregateOk ob.bids ∧ aggregateOk ob.asks := by
  obtain ⟨hbI, haI, _, _⟩ := reachable_bookInv ob h
  have key : ∀ (b : Bool) (s : OrderBookSide), sideInvDir b s → aggregateOk s := by
    intro b s hs i hi
    obtain ⟨hsum, hords⟩ := hs.1 i hi
    refine ⟨hsum, ?_, ?_⟩
    · intro h0
      by_contra hne
      have := queueSum_pos _ hne fun o ho => (hords o ho).1
      omega
    · intro hnil
      rw [hsum, hnil]
      rfl
  exact ⟨key true ob.bids hbI, key false ob.asks haI⟩

theorem C7_aggregate_invariant_witness :
    aggregateOk OrderBook.init.bids ∧ aggregateOk OrderBook.init.asks :=
  C7_aggregate_invariant OrderBook.init Reachable.init

/-- C8: submitting quantity 0 is a no-op for every book state, price, id and
side: no trades, no assert, and the book returned is the input book itself. -/
theorem C8_zero_quantity_noop (ob : OrderBook) (price id : Nat) (b : Bool) :
    submit_order ob price 0 id b = some ⟨ob, [], false⟩ := rfl

/-- One side's resting orders all have remaining quantity at least 1. -/
def positiveQuantities (s : OrderBookSide) : Prop :=
  ∀ i, i < NUM_LEVELS → ∀ o ∈ (s.levels_ i).queue_, 1 ≤ o.quantity_

instance (s : OrderBookSide) : Decidable (positiveQuantities s) := by
  unfold positiveQuantities; infer_instance

/-- C10: in every reachable state every resting order has remaining quantity
at least 1, and the matching loops terminate on every input (the fuel-indexed
loops reach a normal exit, so `match_buy`, `match_sell` and `submit_order`
always return a value). -/
theorem C10_positivity_and_termination (ob : OrderBook) (h : Reachable ob) :
    positiveQuantities ob.bids ∧ positiveQuantities ob.asks ∧
    (∀ p q id, (match_buy ob.asks p q id).isSome) ∧
    (∀ p q id, (match_sell ob.bids p q id).isSome) ∧
    (∀ p q id b, (submit_order ob p q id b).isSome) := by
  obtain ⟨hbI, haI, hbB, haB⟩ := reachable_bookInv ob h
  refine ⟨fun i hi o ho => ((hbI.1 i hi).2 o ho).1,
    fun i hi o ho => ((haI.1 i hi).2 o ho).1, ?_, ?_, ?_⟩
  · intro p q id
    obtain ⟨s', ts, rem, heq, _⟩ := match_buy_spec ob.asks p q id haI
    rw [heq]
    rfl
  · intro p q id
    obtain ⟨s', ts, rem, heq, _⟩ := match_sell_spec ob.bids p q id hbI
    rw [heq]
    rfl
  · intro p q id b
    obtain ⟨out, heq, _⟩ := submit_order_spec ob p q id b ⟨hbI, haI, hbB, haB⟩
    rw [heq]
    rfl

theorem C10_positivity_and_termination_witness :
    positiveQuantities OrderBook.init.bids ∧
    (match_buy OrderBook.init.asks 1000 7 3).isSome ∧
    (match_sell OrderBook.init.bids 1000 7 3).isSome ∧
    (submit_order OrderBook.init 1000 7 3 true).isSome := by
  obtain ⟨h1, _, h3, h4, h5⟩ :=
    C10_positivity_and_termination OrderBook.init Reachable.init
  exact ⟨h1, h3 1000 7 3, h4 1000 7 3, h5 1000 7 3 true⟩

/-! ### Concrete states for counterexamples and witnesses -/

/-- An empty bid side whose pool has no free slot. -/
def emptyBidsNoSlots : OrderBookSide :=
  { OrderBookSide.init true with free_slots_ := 0 }

/-- Book with an empty ask side and an empty bid side whose pool is full. -/
def cexBook : OrderBook := ⟨emptyBidsNoSlots, OrderBookSide.init false⟩

/-- An ask side holding one resting order: id 1, 10@900 (ladder index 100). -/
def askSide900 : OrderBookSide where
  levels_ := fun i => if i = 100 then ⟨10, [⟨1, 900, 10⟩]⟩ else ⟨0, []⟩
  free_slots_ := MAX_ORDERS - 1
  is_bid_ := false
  best_price_index_ := 100

/-- C1 counterexample: on a book whose bid-side arena has no free slot, a bid
of quantity 5 produces no trades and rests nothing (the remainder is silently
dropped), so incoming quantity 5 differs from trade sum plus newly rested
quantity (0 + 0), contradicting the claim's equation. -/
theorem C1_counterexample :
    submit_order cexBook 900 5 0 true = some ⟨cexBook, [], false⟩ ∧
    (5 : Nat) ≠ tradeSum [] + (sideTotal cexBook.bids - sideTotal cexBook.bids) := by
  constructor
  · rfl
  · simp

/-- C1 (amended): for an in-range submission on a well-formed book, the trade
sum never exceeds the incoming quantity, and the quantity newly rested on the
submitter's own side equals the unmatched remainder when the own-side arena
has a free slot and 0 when it is exhausted — in the exhausted case the
remainder is dropped, so incoming quantity exceeds trades plus rested. -/
theorem C1_conservation_amended (ob : OrderBook) (price q id : Nat) (b : Bool)
    (out : SubmitOutcome) (hinv : bookInv ob) (hr : priceInRange price)
    (h : submit_order ob price q id b = some out) :
    tradeSum out.trades ≤ q ∧
    sideTotal (ownSide out.book b) = sideTotal (ownSide ob b) +
      (if (ownSide ob b).free_slots_ = 0 then 0 else q - tradeSum out.trades) := by
  obtain ⟨out', hsub, _, hle, _, hrest, _, _⟩ := submit_order_spec ob price q id b hinv
  rw [hsub] at h
  injection h with h
  rw [← h]
  exact ⟨hle, (hrest hr).1⟩

theorem C1_conservation_amended_witness :
    bookInv cexBook ∧ priceInRange 900 ∧
    (tradeSum (⟨cexBook, [], false⟩ : SubmitOutcome).trades ≤ 5 ∧
      sideTotal (ownSide (⟨cexBook, [], false⟩ : SubmitOutcome).book true) =
        sideTotal (ownSide cexBook true) +
          (if (ownSide cexBook true).free_slots_ = 0 then 0
           else 5 - tradeSum (⟨cexBook, [], false⟩ : SubmitOutcome).trades)) :=
  ⟨by decide, by decide,
    C1_conservation_amended cexBook 900 5 0 true ⟨cexBook, [], false⟩
      (by decide) (by decide) rfl⟩

/-- An ask side with two resting orders at 900: id 5 qty 3 (older), then id 6
qty 4 (newer). -/
def askSideAB : OrderBookSide where
  levels_ := fun i => if i = 100 then ⟨7, [⟨5, 900, 3⟩, ⟨6, 900, 4⟩]⟩ else ⟨0, []⟩
  free_slots_ := MAX_ORDERS
  is_bid_ := false
  best_price_index_ := 100

/-- A bid side with two resting orders at 900: id 5 qty 3 (older), then id 6
qty 4 (newer). -/
def bidSideAB : OrderBookSide where
  levels_ := fun i => if i = 100 then ⟨7, [⟨5, 900, 3⟩, ⟨6, 900, 4⟩]⟩ else ⟨0, []⟩
  free_slots_ := MAX_ORDERS
  is_bid_ := true
  best_price_index_ := 100

/-- FIFO head property of `match_buy`: on a well-formed ask side whose best
level queues A (older) before B (newer), a crossing incoming bid with
quantity at least A's remaining quantity first emits the trade that fully
fills A — at A's id, price and full quantity — before any trade touches B. -/
theorem matchBuy_fifo_head (s : OrderBookSide) (p q tid : Nat) (A B : Order)
    (rest : List Order)
    (hs : sideInvDir false s)
    (hb : s.best_price_index_ < NUM_LEVELS)
    (hqueue : (s.levels_ s.best_price_index_).queue_ = A :: B :: rest)
    (hcross : levelPrice s.best_price_index_ ≤ p)
    (hge : A.quantity_ ≤ q) :
    ∃ s' ts rem, match_buy s p q tid =
      some (s', ⟨tid, A.order_id_, A.price_, A.quantity_⟩ :: ts, rem) := by
  have hA1 : 1 ≤ A.quantity_ := by
    have := (hs.1 s.best_price_index_ hb).2 A (by rw [hqueue]; exact List.mem_cons_self _ _)
    exact this.1
  have hq0 : ¬ q = 0 := by omega
  have hbne : ¬ s.best_price_index_ = NUM_LEVELS := by omega
  obtain ⟨s', ts0, rem, heq, _⟩ := match_buy_spec s p q tid hs
  have heqKeep := heq
  unfold match_buy FUEL at heq
  rw [matchBuyFuel] at heq
  rw [if_neg hq0, if_neg hbne, if_neg (not_not_intro hcross)] at heq
  rcases hM : matchBuyFuel NUM_LEVELS (matchBuyStep s q tid).1 p
      (matchBuyStep s q tid).2.remaining tid with _ | ⟨s'', ts2, rem2⟩ <;>
    simp only [hM] at heq
  · exact absurd heq (by simp)
  simp only [Option.some.injEq, Prod.mk.injEq] at heq
  obtain ⟨he1, he2, he3⟩ := heq
  have hstep : (matchBuyStep s q tid).2 =
      drainLevel tid q (s.levels_ s.best_price_index_).queue_ := rfl
  have hdrain : (drainLevel tid q (A :: B :: rest)).trades =
      ⟨tid, A.order_id_, A.price_, A.quantity_⟩ ::
        (drainLevel tid (q - A.quantity_) (B :: rest)).trades := by
    simp [drainLevel, hq0, Nat.min_eq_left hge]
  refine ⟨s', (drainLevel tid (q - A.quantity_) (B :: rest)).trades ++ ts2, rem, ?_⟩
  rw [heqKeep]
  rw [← he2, hstep, hqueue, hdrain]
  rfl

/-- FIFO head property of `match_sell`: mirror image of `matchBuy_fifo_head`
for a crossing incoming ask draining a well-formed bid side. -/
theorem matchSell_fifo_head (s : OrderBookSide) (p q tid : Nat) (A B : Order)
    (rest : List Order)
    (hs : sideInvDir true s)
    (hb : s.best_price_index_ < NUM_LEVELS)
    (hqueue : (s.levels_ s.best_price_index_).queue_ = A :: B :: rest)
    (hcross : p ≤ levelPrice s.best_price_index_)
    (hge : A.quantity_ ≤ q) :
    ∃ s' ts rem, match_sell s p q tid =
      some (s', ⟨tid, A.order_id_, A.price_, A.quantity_⟩ :: ts, rem) := by
  have hA1 : 1 ≤ A.quantity_ := by
    have := (hs.1 s.best_price_index_ hb).2 A (by rw [hqueue]; exact List.mem_cons_self _ _)
    exact this.1
  have hq0 : ¬ q = 0 := by omega
  have hbne : ¬ s.best_price_index_ = NUM_LEVELS := by omega
  obtain ⟨s', ts0, rem, heq, _⟩ := match_sell_spec s p q tid hs
  have heqKeep := heq
  unfold match_sell FUEL at heq
  rw [matchSellFuel] at heq
  rw [if_neg hq0, if_neg hbne, if_neg (not_not_intro hcross)] at heq
  rcases hM : matchSellFuel NUM_LEVELS (matchSellStep s q tid).1 p
      (matchSellStep s q tid).2.remaining tid with _ | ⟨s'', ts2, rem2⟩ <;>
    simp only [hM] at heq
  · exact absurd heq (by simp)
  simp only [Option.some.injEq, Prod.mk.injEq] at heq
  obtain ⟨he1, he2, he3⟩ := heq
  have hstep : (matchSellStep s q tid).2 =
      drainLevel tid q (s.levels_ s.best_price_index_).queue_ := rfl
  have hdrain : (drainLevel tid q (A :: B :: rest)).trades =
      ⟨tid, A.order_id_, A.price_, A.quantity_⟩ ::
        (drainLevel tid (q - A.quantity_) (B :: rest)).trades := by
    simp [drainLevel, hq0, Nat.min_eq_left hge]
  refine ⟨s', (drainLevel tid (q - A.quantity_) (B :: rest)).trades ++ ts2, rem, ?_⟩
  rw [heqKeep]
  rw [← he2, hstep, hqueue, hdrain]
  rfl

/-- C3: for both matching loops — an incoming bid draining the ask side
(`match_buy`) and an incoming ask draining the bid side (`match_sell`) — if
the contra side's best level queues resting orders A (enqueued earlier) then
B (enqueued later) and the incoming order crosses that level with quantity at
least A's remaining quantity, then the first emitted trade fully fills A (at
A's id, price and full remaining quantity, after which A is removed) before
any trade can reduce B: resting orders are consumed strictly from the FIFO
head, oldest first. -/
theorem C3_price_time_priority :
    (∀ (s : OrderBookSide) (p q tid : Nat) (A B : Order) (rest : List Order),
      sideInvDir false s → s.best_price_index_ < NUM_LEVELS →
      (s.levels_ s.best_price_index_).queue_ = A :: B :: rest →
      levelPrice s.best_price_index_ ≤ p → A.quantity_ ≤ q →
      ∃ s' ts rem, match_buy s p q tid =
        some (s', ⟨tid, A.order_id_, A.price_, A.quantity_⟩ :: ts, rem)) ∧
    (∀ (s : OrderBookSide) (p q tid : Nat) (A B : Order) (rest : List Order),
      sideInvDir true s → s.best_price_index_ < NUM_LEVELS →
      (s.levels_ s.best_price_index_).queue_ = A :: B :: rest →
      p ≤ levelPrice s.best_price_index_ → A.quantity_ ≤ q →
      ∃ s' ts rem, match_sell s p q tid =
        some (s', ⟨tid, A.order_id_, A.price_, A.quantity_⟩ :: ts, rem)) :=
  ⟨fun s p q tid A B rest hs hb hqueue hcross hge =>
    matchBuy_fifo_head s p q tid A B rest hs hb hqueue hcross hge,
   fun s p q tid A B rest hs hb hqueue hcross hge =>
    matchSell_fifo_head s p q tid A B rest hs hb hqueue hcross hge⟩

theorem C3_price_time_priority_witness :
    (sideInvDir false askSideAB ∧
      askSideAB.best_price_index_ < NUM_LEVELS ∧
      (askSideAB.levels_ askSideAB.best_price_index_).queue_ =
        [⟨5, 900, 3⟩, ⟨6, 900, 4⟩] ∧
      levelPrice askSideAB.best_price_index_ ≤ 905 ∧ (3 : Nat) ≤ 10 ∧
      ∃ s' ts rem, match_buy askSideAB 905 10 9 =
        some (s', ⟨9, 5, 900, 3⟩ :: ts, rem)) ∧
    (sideInvDir true bidSideAB ∧
      bidSideAB.best_price_index_ < NUM_LEVELS ∧
      (bidSideAB.levels_ bidSideAB.best_price_index_).queue_ =
        [⟨5, 900, 3⟩, ⟨6, 900, 4⟩] ∧
      (895 : Nat) ≤ levelPrice bidSideAB.best_price_index_ ∧ (3 : Nat) ≤ 10 ∧
      ∃ s' ts rem, match_sell bidSideAB 895 10 9 =
        some (s', ⟨9, 5, 900, 3⟩ :: ts, rem)) :=
  ⟨⟨by decide, by decide, by decide, by decide, by decide,
    C3_price_time_priority.1 askSideAB 905 10 9 ⟨5, 900, 3⟩ ⟨6, 900, 4⟩ []
      (by decide) (by decide) (by decide) (by decide) (by decide)⟩,
   ⟨by decide, by decide, by decide, by decide, by decide,
    C3_price_time_priority.2 bidSideAB 895 10 9 ⟨5, 900, 3⟩ ⟨6, 900, 4⟩ []
      (by decide) (by decide) (by decide) (by decide) (by decide)⟩⟩

/-- A bid side holding 10@901 (id 1, index 101, best) and 20@900 (id 0,
index 100). -/
def bidSide2 : OrderBookSide where
  levels_ := fun i =>
    if i = 101 then ⟨10, [⟨1, 901, 10⟩]⟩
    else if i = 100 then ⟨20, [⟨0, 900, 20⟩]⟩
    else ⟨0, []⟩
  free_slots_ := MAX_ORDERS - 2
  is_bid_ := true
  best_price_index_ := 101

/-- Book with the two-level bid side and an empty ask side. -/
def bidBook : OrderBook := ⟨bidSide2, OrderBookSide.init false⟩

/-- C4: every trade emitted by a submission on a well-formed book satisfies
the crossing condition (trade price ≤ incoming bid price, resp. ≥ incoming
ask price) and carries the id and resting price of a maker that was resting
on the contra side — the maker's price, never the taker's. -/
theorem C4_trade_price (ob : OrderBook) (price q id : Nat) (b : Bool)
    (out : SubmitOutcome) (hinv : bookInv ob)
    (h : submit_order ob price q id b = some out) :
    ∀ t ∈ out.trades,
      (b = true → t.price ≤ price) ∧ (b = false → price ≤ t.price) ∧
      ∃ i, i < NUM_LEVELS ∧ ∃ o ∈ ((contraSide ob b).levels_ i).queue_,
        t.maker_order_id = o.order_id_ ∧ t.price = o.price_ := by
  obtain ⟨out', hsub, _, _, hT, _⟩ := submit_order_spec ob price q id b hinv
  rw [hsub] at h
  injection h with h
  rw [← h]
  intro t ht
  obtain ⟨_, h2, h3, h4⟩ := hT t ht
  exact ⟨h2, h3, h4⟩

def c4out : SubmitOutcome :=
  (submit_order bidBook 900 15 2 false).getD ⟨OrderBook.init, [], true⟩

theorem C4_trade_price_witness :
    bookInv bidBook ∧
    c4out.trades = [⟨2, 1, 901, 10⟩, ⟨2, 0, 900, 5⟩] ∧
    ∀ t ∈ c4out.trades,
      (false = true → t.price ≤ 900) ∧ (false = false → 900 ≤ t.price) ∧
      ∃ i, i < NUM_LEVELS ∧ ∃ o ∈ ((contraSide bidBook false).levels_ i).queue_,
        t.maker_order_id = o.order_id_ ∧ t.price = o.price_ :=
  ⟨by decide, by decide,
    C4_trade_price bidBook 900 15 2 false c4out (by decide) rfl⟩

/-- Book with an empty bid side and one resting ask 10@900 (id 1). -/
def askBook : OrderBook := ⟨OrderBookSide.init true, askSide900⟩

/-- C5 (evaluation at the failing input): submitting a bid at price 1300 —
outside `[PRICE_MIN, PRICE_MAX]` — against a resting ask at 900 emits a trade
and mutates the ask side, and the assert in `add_order` never runs (the order
fully fills, so no rest is attempted): the out-of-range submission is not
rejected before mutation. -/
theorem C5_out_of_range_not_rejected :
    ¬ priceInRange 1300 ∧
    (submit_order askBook 1300 5 2 true).map SubmitOutcome.trades =
      some [⟨2, 1, 900, 5⟩] ∧
    (submit_order askBook 1300 5 2 true).map SubmitOutcome.assertHit = some false ∧
    (submit_order askBook 1300 5 2 true).map
      (fun out => (out.book.asks.levels_ 100).total_quantity_) = some 5 := by
  decide

/-- C6: when the own side's arena has no free slot, a submission still returns
the matching phase's trades unchanged, never hits the assert, and leaves the
own side (ladder, aggregates, cursor, pool) entirely untouched — the
unmatched remainder is silently dropped. -/
theorem C6_capacity_exhaustion (ob : OrderBook) (price q id : Nat) (b : Bool)
    (out : SubmitOutcome) (hinv : bookInv ob)
    (hfree : (ownSide ob b).free_slots_ = 0) (hr : priceInRange price)
    (h : submit_order ob price q id b = some out) :
    ownSide out.book b = ownSide ob b ∧
    out.assertHit = false ∧
    ∃ c' rem, matchContra ob b price q id = some (c', out.trades, rem) ∧
      contraSide out.book b = c' := by
  obtain ⟨out', hsub, _, _, _, hPR, hOwn, hMatch⟩ := submit_order_spec ob price q id b hinv
  rw [hsub] at h
  injection h with h
  rw [← h]
  exact ⟨hOwn hfree, (hPR hr).2, hMatch⟩

/-- Book with one resting ask 10@900 and a bid side whose pool is full. -/
def c6book : OrderBook := ⟨emptyBidsNoSlots, askSide900⟩

def c6out : SubmitOutcome :=
  (submit_order c6book 900 15 2 true).getD ⟨OrderBook.init, [], true⟩

theorem C6_capacity_exhaustion_witness :
    bookInv c6book ∧ (ownSide c6book true).free_slots_ = 0 ∧ priceInRange 900 ∧
    c6out.trades = [⟨2, 1, 900, 10⟩] ∧
    (ownSide c6out.book true = ownSide c6book true ∧
      c6out.assertHit = false ∧
      ∃ c' rem, matchContra c6book true 900 15 2 = some (c', c6out.trades, rem) ∧
        contraSide c6out.book true = c') :=
  ⟨by decide, by decide, by decide, by decide,
    C6_capacity_exhaustion c6book 900 15 2 true c6out (by decide) (by decide)
      (by decide) rfl⟩

/-! ### The example scenario (C9) -/

def step1 : Option SubmitOutcome := submit_order OrderBook.init 900 20 0 true

def out1 : SubmitOutcome := step1.getD ⟨OrderBook.init, [], true⟩

def step2 : Option SubmitOutcome := submit_order out1.book 901 10 1 true

def out2 : SubmitOutcome := step2.getD ⟨OrderBook.init, [], true⟩

def step3 : Option SubmitOutcome := submit_order out2.book 900 15 2 false

def out3 : SubmitOutcome := step3.getD ⟨OrderBook.init, [], true⟩

/-- C9: from the empty book, bid(900,20,id=0) then bid(901,10,id=1) produce no
trades and leave the bid book {901:10, 900:20} with the cursor at the 901
level (index 101); ask(900,15,id=2) then produces exactly the trades
(taker 2, maker 1, 901, 10) and (taker 2, maker 0, 900, 5) in that order,
leaving bid id 0 resting with quantity 15 at 900 and nothing on the ask
side. -/
theorem C9_example_scenario :
    step1.isSome ∧ out1.trades = [] ∧ out1.assertHit = false ∧
    step2.isSome ∧ out2.trades = [] ∧ out2.assertHit = false ∧
    (out2.book.bids.levels_ 101).total_quantity_ = 10 ∧
    (out2.book.bids.levels_ 100).total_quantity_ = 20 ∧
    out2.book.bids.best_price_index_ = 101 ∧
    levelPrice 101 = 901 ∧ levelPrice 100 = 900 ∧
    step3.isSome ∧
    out3.trades = [⟨2, 1, 901, 10⟩, ⟨2, 0, 900, 5⟩] ∧ out3.assertHit = false ∧
    (out3.book.bids.levels_ 100).queue_ = [⟨0, 900, 15⟩] ∧
    (out3.book.bids.levels_ 100).total_quantity_ = 15 ∧
    (out3.book.bids.levels_ 101).total_quantity_ = 0 ∧
    out3.book.bids.best_price_index_ = 100 ∧
    (∀ i, i < NUM_LEVELS → (out3.book.asks.levels_ i).total_quantity_ = 0) := by
  decide

end LOB
